import Mathlib

/-!
Verification of the pstop telemetry/process-view engine.

This file is a shallow embedding, in Lean 4, of the parts of the pstop
source that the specification talks about:

* `src/app.rs` — filtering (`apply_filter`), searching (`search_next`),
  tree building (`build_tree_view`), selection clamping (`clamp_selection`);
* `src/system/collector.rs` — the sample pass (`Collector::refresh`,
  `collect_processes`), I/O rate derivation and cache cadence;
* `src/system/netstat.rs` — the per-connection bandwidth tracker
  (`NetBandwidthTracker::collect`, `probe_v4`/`probe_v6`);
* `src/config.rs` — `PstopConfig::load`.

Modelling conventions: Rust `String` becomes `List Char` (with Rust's
`to_lowercase`/`trim` rendered via `Char.toLower`/`Char.isWhitespace`);
`u32`/`u64`/`usize` counters become `Nat` (Rust arithmetic on them here is
only `saturating_sub`, comparison, `+`, `%`, `min`/`max`, all of which agree
with `Nat`); `f64` rates and timestamps become `ℚ` (the floating-point
values reaching these computations are quotients of counter deltas by
elapsed seconds; no NaN/Inf arises on the modelled paths, and
`partial_cmp(..).unwrap_or(Equal)` is rendered as total comparison);
`HashMap`/`HashSet` become association lists / lists of keys with
replace-insert; OS calls become fields of an explicit oracle record that a
sample pass consumes.
-/

/- The Batteries rational primitives are marked irreducible, which leaves
`decide` unable to evaluate concrete `ℚ` arithmetic; restore the default
reducibility so that concrete witnesses kernel-evaluate. -/
set_option allowUnsafeReducibility true in
attribute [semireducible] Rat.sub Rat.add Rat.mul Rat.inv

/-- Rust `String` modelled as a list of characters. -/
abbrev Str := List Char

/-- Rust `str::to_lowercase` (per-character lowering; the Unicode
multi-character expansions do not occur in the identifiers involved). -/
def lowerStr (s : Str) : Str := s.map Char.toLower

/-- Rust `str::contains(needle)`: substring test. -/
def strContains (hay needle : Str) : Bool := decide (needle <:+: hay)

/-- Rust `str::trim`: drop leading and trailing whitespace. -/
def trimStr (s : Str) : Str :=
  ((s.dropWhile Char.isWhitespace).reverse.dropWhile Char.isWhitespace).reverse

/-- Process status, `src/system/process.rs` (`ProcessStatus`). -/
inductive PStatus
  | Running | Sleeping | DiskSleep | Stopped | Zombie | Unknown
deriving DecidableEq

/-- Position of a status in the Rust `derive(PartialOrd, Ord)` order. -/
def PStatus.rank : PStatus → Nat
  | .Running => 0 | .Sleeping => 1 | .DiskSleep => 2
  | .Stopped => 3 | .Zombie => 4 | .Unknown => 5

/-- `src/system/process.rs` `ProcessInfo`. Byte counts are `Nat`,
percentages and rates are `ℚ`. -/
structure ProcessInfo where
  pid : Nat
  ppid : Nat
  name : Str
  command : Str
  user : Str
  status : PStatus
  priority : Int
  nice : Int
  virtual_mem : Nat
  resident_mem : Nat
  shared_mem : Nat
  cpu_usage : ℚ
  mem_usage : ℚ
  run_time : Nat
  cpu_time_100ns : Nat
  threads : Nat
  io_read_rate : ℚ
  io_write_rate : ℚ
  depth : Nat
  is_last_child : Bool
deriving DecidableEq

instance : Inhabited ProcessInfo where
  default :=
    { pid := 0, ppid := 0, name := [], command := [], user := []
      status := .Unknown, priority := 0, nice := 0
      virtual_mem := 0, resident_mem := 0, shared_mem := 0
      cpu_usage := 0, mem_usage := 0, run_time := 0, cpu_time_100ns := 0
      threads := 0, io_read_rate := 0, io_write_rate := 0
      depth := 0, is_last_child := false }

/-! ## `App::apply_filter` (`src/app.rs:335-376`) -/

/-- The hide-kernel test of `apply_filter`: the lowercased user name
contains `"system"` or `"nt authority"`. -/
def kernelUser (p : ProcessInfo) : Bool :=
  strContains (lowerStr p.user) ("system".toList) ||
    strContains (lowerStr p.user) ("nt authority".toList)

/-- One OR-term test of the F4 filter: trimmed term is non-empty and is a
substring of the lowercased name or command. -/
def termMatches (nameLower cmdLower : Str) (term : Str) : Bool :=
  let t := trimStr term
  !t.isEmpty && (strContains nameLower t || strContains cmdLower t)

/-- Body of the `for p in &self.processes` loop of `apply_filter`: the
chain of `continue`s, appending `p` when it survives all three filters.
`uf` is the pre-lowercased user filter, `terms` the `'|'`-split query. -/
def applyFilterStep (uf : Option Str) (hideKernel : Bool)
    (filterEmpty : Bool) (terms : List Str)
    (acc : List ProcessInfo) (p : ProcessInfo) : List ProcessInfo :=
  if (match uf with
      | some u => lowerStr p.user != u
      | none => false) then acc
  else if hideKernel && kernelUser p then acc
  else if !filterEmpty &&
      !(terms.any (termMatches (lowerStr p.name) (lowerStr p.command))) then acc
  else acc ++ [p]

/-- `App::apply_filter`: rebuild the filtered list from `processes`. -/
def apply_filter (userFilter : Option Str) (hideKernel : Bool)
    (filterQuery : Str) (processes : List ProcessInfo) : List ProcessInfo :=
  let uf := userFilter.map lowerStr
  let filterEmpty := filterQuery.isEmpty
  let queryLower := lowerStr filterQuery
  let terms : List Str := if !filterEmpty then queryLower.splitOn '|' else []
  processes.foldl (applyFilterStep uf hideKernel filterEmpty terms) []

/-- The keep-predicate exactly as claim C4 words it: (i) user equal to the
user filter case-insensitively, (ii) user name free of system-account
markers when hide-kernel is on, (iii) some trimmed non-empty `'|'`-term of
the non-empty filter string occurs in name or command. -/
def claimKeeps (userFilter : Option Str) (hideKernel : Bool)
    (filterQuery : Str) (p : ProcessInfo) : Bool :=
  (match userFilter with
   | some u => lowerStr p.user == lowerStr u
   | none => true) &&
  (!hideKernel || !kernelUser p) &&
  (filterQuery.isEmpty ||
    ((lowerStr filterQuery).splitOn '|').any
      (termMatches (lowerStr p.name) (lowerStr p.command)))

lemma applyFilterStep_append (uf : Option Str) (hk fe : Bool)
    (terms : List Str) (acc : List ProcessInfo) (p : ProcessInfo) :
    applyFilterStep uf hk fe terms acc p =
      acc ++ applyFilterStep uf hk fe terms [] p := by
  unfold applyFilterStep
  by_cases h1 : (match uf with
      | some u => lowerStr p.user != u
      | none => false) = true
  · simp [h1]
  · simp only [Bool.not_eq_true] at h1
    by_cases h2 : (hk && kernelUser p) = true
    · simp [h1, h2]
    · simp only [Bool.not_eq_true] at h2
      by_cases h3 : (!fe &&
          !(terms.any (termMatches (lowerStr p.name) (lowerStr p.command)))) = true
      · simp [h1, h2, h3]
      · simp only [Bool.not_eq_true] at h3
        simp [h1, h2, h3]

lemma foldl_applyFilterStep (uf : Option Str) (hk fe : Bool)
    (terms : List Str) (ps : List ProcessInfo) (acc : List ProcessInfo) :
    ps.foldl (applyFilterStep uf hk fe terms) acc =
      acc ++ ps.foldl (applyFilterStep uf hk fe terms) [] := by
  induction ps generalizing acc with
  | nil => simp
  | cons p ps ih =>
    simp only [List.foldl_cons]
    rw [applyFilterStep_append, ih, ih (applyFilterStep uf hk fe terms [] p)]
    simp

lemma applyFilterStep_singleton (userFilter : Option Str) (hk : Bool)
    (filterQuery : Str) (p : ProcessInfo) :
    applyFilterStep (userFilter.map lowerStr) hk filterQuery.isEmpty
        (if !filterQuery.isEmpty then (lowerStr filterQuery).splitOn '|' else [])
        [] p =
      if claimKeeps userFilter hk filterQuery p then [p] else [] := by
  unfold applyFilterStep claimKeeps
  cases userFilter with
  | none =>
    cases hfe : filterQuery.isEmpty <;>
      cases hk' : hk <;>
        cases hker : kernelUser p <;>
          cases hany : ((lowerStr filterQuery).splitOn '|').any
              (termMatches (lowerStr p.name) (lowerStr p.command)) <;>
            simp [hfe, hk', hker, hany]
  | some u =>
    by_cases hu : lowerStr p.user = lowerStr u <;>
      cases hfe : filterQuery.isEmpty <;>
        cases hk' : hk <;>
          cases hker : kernelUser p <;>
            cases hany : ((lowerStr filterQuery).splitOn '|').any
                (termMatches (lowerStr p.name) (lowerStr p.command)) <;>
              simp [hu, hfe, hk', hker, hany]

/-- Claim C4: `apply_filter` keeps exactly the processes satisfying the
three criteria, in their original relative order — it equals a `filter` by
the claim's predicate. -/
theorem apply_filter_eq_filter_claimKeeps (userFilter : Option Str)
    (hideKernel : Bool) (filterQuery : Str) (processes : List ProcessInfo) :
    apply_filter userFilter hideKernel filterQuery processes =
      processes.filter (claimKeeps userFilter hideKernel filterQuery) := by
  unfold apply_filter
  induction processes with
  | nil => rfl
  | cons p ps ih =>
    simp only [List.foldl_cons, List.filter_cons]
    rw [foldl_applyFilterStep, ih, applyFilterStep_singleton]
    by_cases h : claimKeeps userFilter hideKernel filterQuery p = true
    · simp [h]
    · simp only [Bool.not_eq_true] at h
      simp [h]

/-! ## Application state (`src/app.rs`) and its view operations -/

/-- `src/app.rs` `ProcessTab`. -/
inductive ProcessTab
  | Main | Io | Net | Gpu
deriving DecidableEq

/-- `src/system/process.rs` `ProcessSortField`. -/
inductive ProcessSortField
  | Pid | Ppid | User | Priority | Nice | VirtMem | ResMem | SharedMem
  | Status | Cpu | Mem | Time | Threads | Command
  | IoReadRate | IoWriteRate | IoRate
deriving DecidableEq

/-- `ProcessSortField::all()` — note the htop column order places `Command`
last, after the I/O fields. -/
def ProcessSortField.all : List ProcessSortField :=
  [.Pid, .Ppid, .User, .Priority, .Nice, .VirtMem, .ResMem, .SharedMem,
   .Status, .Cpu, .Mem, .Time, .Threads, .IoReadRate, .IoWriteRate, .IoRate,
   .Command]

/-- Modelled from the spec: `NetConnection` (imported by `src/app.rs` from a
netstat revision absent from the source dump). Spec §3 `ConnectionRecord`:
protocol {TCP, UDP}, local/remote endpoint, TCP state, owning pid. Only its
list length matters to the claims below. -/
structure NetConnection where
  proto_tcp : Bool
  local_ep : Nat × Nat
  remote_ep : Nat × Nat
  tcp_state : Nat
  pid : Nat
deriving DecidableEq

/-- `src/system/netstat.rs` `ProcessNetBandwidth`. -/
structure ProcessNetBandwidth where
  pid : Nat
  name : Str
  recv_bytes_per_sec : ℚ
  send_bytes_per_sec : ℚ
  connection_count : Nat
deriving DecidableEq

/-- `src/system/gpu.rs` `GpuProcessInfo`. -/
structure GpuProcessInfo where
  pid : Nat
  gpu_usage : ℚ
  dedicated_mem : Nat
  shared_mem : Nat
  engine_type : Str
deriving DecidableEq

/-- `src/system/cpu.rs` `CpuCore`. -/
structure CpuCore where
  id : Nat
  usage_percent : ℚ
  frequency_mhz : Nat
deriving DecidableEq

/-- `src/system/cpu.rs` `CpuInfo`. -/
structure CpuInfo where
  cores : List CpuCore
  total_usage : ℚ
  physical_cores : Nat
  logical_cores : Nat
  brand : Str
deriving DecidableEq

/-- `src/system/memory.rs` `MemoryInfo`. -/
structure MemoryInfo where
  total_mem : Nat
  used_mem : Nat
  free_mem : Nat
  cached_mem : Nat
  buffered_mem : Nat
  total_swap : Nat
  used_swap : Nat
  free_swap : Nat
deriving DecidableEq

/-- `src/system/network.rs` `NetworkInfo`. -/
structure NetworkInfo where
  rx_bytes_per_sec : ℚ
  tx_bytes_per_sec : ℚ
  total_rx : Nat
  total_tx : Nat
deriving DecidableEq

/-- The `App` fields (`src/app.rs:37-165`) touched by the modelled
operations.  Purely presentational fields (menus, meters, color scheme)
are omitted; they are not read or written by any modelled function. -/
structure AppState where
  paused : Bool
  active_tab : ProcessTab
  cpu_info : CpuInfo
  memory_info : MemoryInfo
  network_info : NetworkInfo
  processes : List ProcessInfo
  filtered_processes : List ProcessInfo
  connections : List NetConnection
  net_processes : List ProcessNetBandwidth
  net_selected_index : Nat
  net_scroll_offset : Nat
  gpu_processes : List GpuProcessInfo
  gpu_overall_usage : ℚ
  gpu_dedicated_mem : Nat
  gpu_shared_mem : Nat
  gpu_selected_index : Nat
  gpu_scroll_offset : Nat
  selected_index : Nat
  scroll_offset : Nat
  visible_rows : Nat
  sort_field : ProcessSortField
  sort_ascending : Bool
  search_query : Str
  search_not_found : Bool
  filter_query : Str
  user_filter : Option Str
  available_users : List Str
  tagged_pids : List Nat
  follow_pid : Option Nat
  tree_view : Bool
  collapsed_pids : List Nat
  show_threads : Bool
  show_thread_names : Bool
  hide_kernel_threads : Bool
  update_process_names : Bool
  uptime_seconds : Nat
  total_tasks : Nat
  running_tasks : Nat
  sleeping_tasks : Nat
  total_threads : Nat
  load_avg_1 : ℚ
  load_avg_5 : ℚ
  load_avg_15 : ℚ
  cpu_user_frac : ℚ
  cpu_kernel_frac : ℚ
  tick : Nat
deriving DecidableEq

/-- Three-way comparison on a linear order (`Ord::cmp` / total
`partial_cmp`). -/
def cmp3 {α : Type} [LinearOrder α] (a b : α) : Ordering :=
  if a < b then .lt else if b < a then .gt else .eq

/-- Rust `String` comparison (lexicographic; UTF-8 byte order coincides
with scalar-value order). -/
def strCompare : Str → Str → Ordering
  | [], [] => .eq
  | [], _ :: _ => .lt
  | _ :: _, [] => .gt
  | a :: as, b :: bs =>
    if a.toNat < b.toNat then .lt
    else if b.toNat < a.toNat then .gt
    else strCompare as bs

/-- The per-field comparator of `App::sort_processes` (`src/app.rs:306-329`).
Float comparisons (`partial_cmp(..).unwrap_or(Equal)`) are total on the ℚ
model. -/
def sortOrd (field : ProcessSortField) (a b : ProcessInfo) : Ordering :=
  match field with
  | .Pid => cmp3 a.pid b.pid
  | .Ppid => cmp3 a.ppid b.ppid
  | .User => strCompare (lowerStr a.user) (lowerStr b.user)
  | .Priority => cmp3 a.priority b.priority
  | .Nice => cmp3 a.nice b.nice
  | .VirtMem => cmp3 a.virtual_mem b.virtual_mem
  | .ResMem => cmp3 a.resident_mem b.resident_mem
  | .SharedMem => cmp3 a.shared_mem b.shared_mem
  | .Cpu => cmp3 a.cpu_usage b.cpu_usage
  | .Mem => cmp3 a.mem_usage b.mem_usage
  | .Time => cmp3 a.run_time b.run_time
  | .Threads => cmp3 a.threads b.threads
  | .Command => strCompare (lowerStr a.name) (lowerStr b.name)
  | .Status => cmp3 a.status.rank b.status.rank
  | .IoReadRate => cmp3 a.io_read_rate b.io_read_rate
  | .IoWriteRate => cmp3 a.io_write_rate b.io_write_rate
  | .IoRate => cmp3 (a.io_read_rate + a.io_write_rate)
      (b.io_read_rate + b.io_write_rate)

/-- `App::sort_processes`: stable sort of the filtered list by the active
field; descending direction reverses the comparator's result. Rust's
`sort_by` is a stable sort, whose result on a total preorder is unique;
it is modelled by the (stable) insertion sort. -/
def sort_processes (s : AppState) : AppState :=
  { s with filtered_processes :=
      s.filtered_processes.insertionSort (fun a b =>
        ((if s.sort_ascending then sortOrd s.sort_field a b
          else (sortOrd s.sort_field a b).swap) != Ordering.gt) = true) }

/-- `App::apply_filter` acting on the state. -/
def applyFilterApp (s : AppState) : AppState :=
  { s with filtered_processes :=
      (apply_filter s.user_filter s.hide_kernel_threads s.filter_query
        s.processes) }

/-- `App::collect_users` (the `HashSet` iteration order of the Rust code is
unspecified; the model deduplicates in first-occurrence order before the
case-insensitive sort, which the code then fixes up to sorted order too). -/
def collect_users (s : AppState) : AppState :=
  { s with available_users :=
      ((s.processes.map (·.user)).dedup).insertionSort (fun a b =>
        (strCompare (lowerStr a) (lowerStr b) != Ordering.gt) = true) }

/-- `App::ensure_visible` (`src/app.rs:452-458`). -/
def ensure_visible (s : AppState) : AppState :=
  if s.selected_index < s.scroll_offset then
    { s with scroll_offset := s.selected_index }
  else if s.scroll_offset + s.visible_rows ≤ s.selected_index then
    { s with scroll_offset := s.selected_index - s.visible_rows + 1 }
  else s

/-- The match test of F3 search: lowercased name or command contains the
(pre-lowercased) query. -/
def searchHit (query : Str) (p : ProcessInfo) : Bool :=
  strContains (lowerStr p.name) query || strContains (lowerStr p.command) query

/-- `App::search_next` (`src/app.rs:380-402`): scan forward from the index
after the selection, wrapping modulo the list length. -/
def search_next (s : AppState) : AppState :=
  if s.search_query.isEmpty || s.filtered_processes.isEmpty then s
  else
    let query := lowerStr s.search_query
    let start := s.selected_index + 1
    let len := s.filtered_processes.length
    match (List.range len).find? (fun off =>
        searchHit query (s.filtered_processes.getD ((start + off) % len)
          default)) with
    | some off =>
      ensure_visible { s with
        selected_index := (start + off) % len, search_not_found := false }
    | none => { s with search_not_found := true }

/-- `App::follow_process` (`src/app.rs:703-710`). -/
def follow_process (s : AppState) : AppState :=
  match s.follow_pid with
  | some f =>
    match s.filtered_processes.findIdx? (fun p => p.pid == f) with
    | some idx => ensure_visible { s with selected_index := idx }
    | none => s
  | none => s

/-- `App::clamp_selection` (`src/app.rs:712-735`): the three tab-local
clamps, in program order. -/
def clamp_selection (s : AppState) : AppState :=
  let s1 :=
    if s.filtered_processes.isEmpty then
      { s with selected_index := 0, scroll_offset := 0 }
    else if s.filtered_processes.length ≤ s.selected_index then
      { s with selected_index := s.filtered_processes.length - 1 }
    else s
  let s2 :=
    if s1.connections.isEmpty then
      { s1 with net_selected_index := 0, net_scroll_offset := 0 }
    else if s1.connections.length ≤ s1.net_selected_index then
      { s1 with net_selected_index := s1.connections.length - 1 }
    else s1
  if s2.gpu_processes.isEmpty then
    { s2 with gpu_selected_index := 0, gpu_scroll_offset := 0 }
  else if s2.gpu_processes.length ≤ s2.gpu_selected_index then
    { s2 with gpu_selected_index := s2.gpu_processes.length - 1 }
  else s2

/-! ### Claim C7: forward search -/

lemma find?_first {α : Type} {p : α → Bool} :
    ∀ {l : List α} {b : α}, l.find? p = some b →
      ∃ i : Nat, ∃ _ : i < l.length,
        l.getD i b = b ∧ p b = true ∧
        ∀ j, j < l.length → j < i → p (l.getD j b) = false := by
  intro l
  induction l with
  | nil => intro b h; simp [List.find?] at h
  | cons a l ih =>
    intro b h
    cases ha : p a with
    | true =>
      simp only [List.find?_cons, ha] at h
      obtain rfl : a = b := by injection h
      exact ⟨0, by simp, rfl, ha,
        fun j _ hj => absurd hj (Nat.not_lt_zero _)⟩
    | false =>
      simp only [List.find?_cons, ha] at h
      obtain ⟨i, hi, hget, hb, hfirst⟩ := ih h
      refine ⟨i + 1, by simpa using Nat.succ_lt_succ hi, by simpa using hget,
        hb, ?_⟩
      intro j hj hji
      cases j with
      | zero => simpa using ha
      | succ j =>
        have := hfirst j (by simpa using Nat.lt_of_succ_lt_succ hj)
          (Nat.lt_of_succ_lt_succ hji)
        simpa using this

lemma range_find?_eq_some {n o : Nat} {p : Nat → Bool}
    (h : (List.range n).find? p = some o) :
    o < n ∧ p o = true ∧ ∀ o' < o, p o' = false := by
  obtain ⟨i, hi, hget, hb, hfirst⟩ := find?_first h
  rw [List.length_range] at hi
  have hgeti : (List.range n).getD i o = i := by
    rw [List.getD_eq_getElem _ _ (by simpa using hi)]
    simp
  have hio : i = o := by rw [← hgeti, hget]
  subst hio
  refine ⟨hi, hb, ?_⟩
  intro o' ho'
  have ho'n : o' < n := lt_trans ho' hi
  have := hfirst o' (by simpa using ho'n) ho'
  rwa [List.getD_eq_getElem _ _ (by simpa using ho'n),
    List.getElem_range] at this

lemma wrap_surj (len start idx : Nat) (hlen : 0 < len) (hidx : idx < len) :
    ∃ o, o < len ∧ (start + o) % len = idx := by
  have hs : start % len < len := Nat.mod_lt _ hlen
  refine ⟨(idx + len - start % len) % len, Nat.mod_lt _ hlen, ?_⟩
  rw [Nat.add_mod, Nat.mod_mod_of_dvd _ (dvd_refl len), Nat.add_mod_mod]
  have h2 : start % len + (idx + len - start % len) = idx + len := by omega
  rw [h2, Nat.add_mod_right, Nat.mod_eq_of_lt hidx]

lemma wrap_inj (len start o1 o2 : Nat) (h1 : o1 < len) (h2 : o2 < len)
    (he : (start + o1) % len = (start + o2) % len) : o1 = o2 := by
  have hmod : o1 % len = o2 % len := by
    have h := Nat.ModEq.add_left_cancel' start (a := o1) (b := o2) he
    exact h
  rwa [Nat.mod_eq_of_lt h1, Nat.mod_eq_of_lt h2] at hmod

lemma scan_nodup (len start : Nat) :
    ((List.range len).map (fun o => (start + o) % len)).Nodup := by
  rcases Nat.eq_zero_or_pos len with h | h
  · subst h; simp
  · refine List.Nodup.map_on ?_ (List.nodup_range _)
    intro x hx y hy hxy
    exact wrap_inj len start x y (List.mem_range.mp hx) (List.mem_range.mp hy)
      hxy

lemma ensure_visible_fields (s : AppState) :
    (ensure_visible s).selected_index = s.selected_index ∧
    (ensure_visible s).filtered_processes = s.filtered_processes ∧
    (ensure_visible s).processes = s.processes ∧
    (ensure_visible s).search_not_found = s.search_not_found ∧
    (ensure_visible s).search_query = s.search_query := by
  unfold ensure_visible
  split
  · exact ⟨rfl, rfl, rfl, rfl, rfl⟩
  · split
    · exact ⟨rfl, rfl, rfl, rfl, rfl⟩
    · exact ⟨rfl, rfl, rfl, rfl, rfl⟩

/-- Claim C7: with a non-empty query and non-empty filtered list,
`search_next` scans forward with wraparound starting at the index after the
current selection, visits each filtered element at most once (the scan
order is duplicate-free and covers every index), leaves the process lists
unchanged, moves the cursor to the first matching process in scan order,
and sets the not-found flag iff no filtered process matches. -/
theorem search_next_spec (s : AppState)
    (hq : s.search_query.isEmpty = false)
    (hne : s.filtered_processes.isEmpty = false) :
    (search_next s).filtered_processes = s.filtered_processes ∧
    (search_next s).processes = s.processes ∧
    ((List.range s.filtered_processes.length).map
        (fun o => (s.selected_index + 1 + o) %
          s.filtered_processes.length)).Nodup ∧
    (∀ i < s.filtered_processes.length,
      i ∈ (List.range s.filtered_processes.length).map
        (fun o => (s.selected_index + 1 + o) %
          s.filtered_processes.length)) ∧
    ((search_next s).search_not_found = true ↔
      ∀ p ∈ s.filtered_processes,
        searchHit (lowerStr s.search_query) p = false) ∧
    ((search_next s).search_not_found = true →
      (search_next s).selected_index = s.selected_index) ∧
    ((search_next s).search_not_found = false →
      ∃ o < s.filtered_processes.length,
        (search_next s).selected_index =
          (s.selected_index + 1 + o) % s.filtered_processes.length ∧
        searchHit (lowerStr s.search_query)
          (s.filtered_processes.getD (search_next s).selected_index default)
          = true ∧
        ∀ o' < o,
          searchHit (lowerStr s.search_query)
            (s.filtered_processes.getD
              ((s.selected_index + 1 + o') % s.filtered_processes.length)
              default) = false) := by
  have hnil : s.filtered_processes ≠ [] := by
    intro h; rw [h] at hne; simp at hne
  have hlen : 0 < s.filtered_processes.length := List.length_pos.mpr hnil
  have hcover : ∀ i < s.filtered_processes.length,
      i ∈ (List.range s.filtered_processes.length).map
        (fun o => (s.selected_index + 1 + o) %
          s.filtered_processes.length) := by
    intro i hi
    obtain ⟨o, ho, hoe⟩ := wrap_surj _ (s.selected_index + 1) i hlen hi
    exact List.mem_map.mpr ⟨o, List.mem_range.mpr ho, hoe⟩
  simp only [search_next, hq, hne, Bool.or_self, Bool.false_eq_true,
    if_false]
  split
  case _ o hfind =>
    obtain ⟨ho, hhit, hfirst⟩ := range_find?_eq_some hfind
    obtain ⟨hsel, hfil, hpro, hnf, hqq⟩ := ensure_visible_fields
      { s with
          selected_index :=
            (s.selected_index + 1 + o) % s.filtered_processes.length,
          search_not_found := false }
    have hmemhit : s.filtered_processes.getD
        ((s.selected_index + 1 + o) % s.filtered_processes.length) default
        ∈ s.filtered_processes := by
      rw [List.getD_eq_getElem _ _ (Nat.mod_lt _ hlen)]
      exact List.getElem_mem _
    refine ⟨by simpa using hfil, by simpa using hpro, scan_nodup _ _,
      hcover, ?_, ?_, ?_⟩
    · rw [hnf]
      constructor
      · intro hcontra; simp at hcontra
      · intro hall
        have hfalse := hall _ hmemhit
        rw [hfalse] at hhit
        exact hhit
    · intro hcontra
      rw [hnf] at hcontra
      simp at hcontra
    · intro _
      exact ⟨o, ho, by simpa using hsel, by rw [hsel]; exact hhit, hfirst⟩
  case _ hfind =>
    have hall : ∀ p ∈ s.filtered_processes,
        searchHit (lowerStr s.search_query) p = false := by
      intro p hp
      obtain ⟨i, hi, hip⟩ := List.mem_iff_getElem.mp hp
      obtain ⟨o, ho, hoe⟩ := wrap_surj _ (s.selected_index + 1) i hlen hi
      have := List.find?_eq_none.mp hfind o (List.mem_range.mpr ho)
      simp only [Bool.not_eq_true] at this
      rw [hoe, List.getD_eq_getElem _ _ hi, hip] at this
      exact this
    refine ⟨rfl, rfl, scan_nodup _ _, hcover, ?_, fun _ => rfl, ?_⟩
    · simpa using hall
    · intro hcontra; simp at hcontra

/-- `App::new()` (`src/app.rs:177-299`), restricted to the modelled fields. -/
def app_new : AppState where
  paused := false
  active_tab := .Main
  cpu_info := { cores := [], total_usage := 0, physical_cores := 0,
                logical_cores := 0, brand := [] }
  memory_info := { total_mem := 0, used_mem := 0, free_mem := 0,
                   cached_mem := 0, buffered_mem := 0, total_swap := 0,
                   used_swap := 0, free_swap := 0 }
  network_info := { rx_bytes_per_sec := 0, tx_bytes_per_sec := 0,
                    total_rx := 0, total_tx := 0 }
  processes := []
  filtered_processes := []
  connections := []
  net_processes := []
  net_selected_index := 0
  net_scroll_offset := 0
  gpu_processes := []
  gpu_overall_usage := 0
  gpu_dedicated_mem := 0
  gpu_shared_mem := 0
  gpu_selected_index := 0
  gpu_scroll_offset := 0
  selected_index := 0
  scroll_offset := 0
  visible_rows := 20
  sort_field := .Cpu
  sort_ascending := false
  search_query := []
  search_not_found := false
  filter_query := []
  user_filter := none
  available_users := []
  tagged_pids := []
  follow_pid := none
  tree_view := false
  collapsed_pids := []
  show_threads := false
  show_thread_names := false
  hide_kernel_threads := false
  update_process_names := false
  uptime_seconds := 0
  total_tasks := 0
  running_tasks := 0
  sleeping_tasks := 0
  total_threads := 0
  load_avg_1 := 0
  load_avg_5 := 0
  load_avg_15 := 0
  cpu_user_frac := 7/10
  cpu_kernel_frac := 3/10
  tick := 0

/-- A concrete state for exercising `search_next`: two processes, query
`"b"`, which only the second process matches. -/
def searchW : AppState :=
  { app_new with
      search_query := "b".toList
      filtered_processes :=
        [{ (default : ProcessInfo) with pid := 1, name := "alpha".toList },
         { (default : ProcessInfo) with pid := 2, name := "beta".toList }] }

theorem search_next_spec_witness :
    (search_next searchW).selected_index = 1 ∧
    (search_next searchW).search_not_found = false ∧
    (search_next searchW).filtered_processes = searchW.filtered_processes :=
  ⟨by decide, by decide, (search_next_spec searchW (by decide) (by decide)).1⟩

/-- Full characterization of `clamp_selection`: selection indices are
clamped into range (or zeroed on an empty list), scroll offsets are zeroed
on an empty list and otherwise left untouched, and the lists themselves are
unchanged. -/
lemma clamp_selection_char (s : AppState) :
    (clamp_selection s).filtered_processes = s.filtered_processes ∧
    (clamp_selection s).connections = s.connections ∧
    (clamp_selection s).gpu_processes = s.gpu_processes ∧
    (clamp_selection s).selected_index =
      (if s.filtered_processes.isEmpty then 0
       else min s.selected_index (s.filtered_processes.length - 1)) ∧
    (clamp_selection s).scroll_offset =
      (if s.filtered_processes.isEmpty then 0 else s.scroll_offset) ∧
    (clamp_selection s).net_selected_index =
      (if s.connections.isEmpty then 0
       else min s.net_selected_index (s.connections.length - 1)) ∧
    (clamp_selection s).net_scroll_offset =
      (if s.connections.isEmpty then 0 else s.net_scroll_offset) ∧
    (clamp_selection s).gpu_selected_index =
      (if s.gpu_processes.isEmpty then 0
       else min s.gpu_selected_index (s.gpu_processes.length - 1)) ∧
    (clamp_selection s).gpu_scroll_offset =
      (if s.gpu_processes.isEmpty then 0 else s.gpu_scroll_offset) := by
  unfold clamp_selection
  by_cases h1 : s.filtered_processes.isEmpty <;>
    by_cases h2 : s.connections.isEmpty <;>
      by_cases h3 : s.gpu_processes.isEmpty <;>
        by_cases h4 : s.filtered_processes.length ≤ s.selected_index <;>
          by_cases h5 : s.connections.length ≤ s.net_selected_index <;>
            by_cases h6 : s.gpu_processes.length ≤ s.gpu_selected_index <;>
              simp [h1, h2, h3, h4, h5, h6] <;>
                omega

/-! ## Configuration (`src/config.rs`) -/

/-- `src/color_scheme.rs` `ColorSchemeId`. -/
inductive ColorSchemeId
  | Default | Monochrome | BlackNight | LightTerminal | MidnightCommander
  | BlackOnWhite | DarkVivid
deriving DecidableEq

/-- `ColorSchemeId::from_index` — out-of-range indices fall back to
`Default`. -/
def ColorSchemeId.from_index (idx : Nat) : ColorSchemeId :=
  match idx with
  | 0 => .Default
  | 1 => .Monochrome
  | 2 => .BlackNight
  | 3 => .LightTerminal
  | 4 => .MidnightCommander
  | 5 => .BlackOnWhite
  | 6 => .DarkVivid
  | _ => .Default

/-- `src/config.rs` `PstopConfig`. -/
structure PstopConfig where
  tree_view : Bool
  show_tree_by_default : Bool
  hide_kernel_threads : Bool
  shadow_other_users : Bool
  highlight_base_name : Bool
  show_full_path : Bool
  show_merged_command : Bool
  highlight_megabytes : Bool
  highlight_threads : Bool
  header_margin : Bool
  detailed_cpu_time : Bool
  cpu_count_from_zero : Bool
  update_process_names : Bool
  show_thread_names : Bool
  enable_mouse : Bool
  update_interval_ms : Nat
  color_scheme_id : ColorSchemeId
  sort_field : ProcessSortField
  sort_ascending : Bool
  visible_columns : List ProcessSortField
deriving DecidableEq

/-- `PstopConfig::default()` (`src/config.rs:50-75`). -/
def PstopConfig.defaults : PstopConfig where
  tree_view := false
  show_tree_by_default := false
  hide_kernel_threads := false
  shadow_other_users := false
  highlight_base_name := true
  show_full_path := false
  show_merged_command := false
  highlight_megabytes := true
  highlight_threads := true
  header_margin := true
  detailed_cpu_time := false
  cpu_count_from_zero := false
  update_process_names := false
  show_thread_names := false
  enable_mouse := true
  update_interval_ms := 1500
  color_scheme_id := .Default
  sort_field := .Cpu
  sort_ascending := false
  visible_columns := ProcessSortField.all

/-- Rust `u64::from_str` (also `usize` on 64-bit): optional leading `'+'`,
one or more ASCII digits, error on overflow past `u64::MAX`. -/
def parseU64 (s : Str) : Option Nat :=
  let digits := match s with
    | '+' :: rest => rest
    | _ => s
  if digits.isEmpty || !(digits.all Char.isDigit) then none
  else
    let v := digits.foldl (fun acc c => acc * 10 + (c.toNat - '0'.toNat)) 0
    if v < 2 ^ 64 then some v else none

/-- `str::split_once(sep)`: split at the first occurrence. -/
def splitOnce (sep : Char) : Str → Option (Str × Str)
  | [] => none
  | c :: rest =>
    if c == sep then some ([], rest)
    else (splitOnce sep rest).map (fun q => (c :: q.1, q.2))

/-- One line of `PstopConfig::load`: trim, skip blank and `#`-comment
lines, split at the first `'='`, trim key and value. -/
def parseLine (line : Str) : Option (Str × Str) :=
  let l := trimStr line
  if l.isEmpty then none
  else if l.head? == some '#' then none
  else (splitOnce '=' l).map (fun q => (trimStr q.1, trimStr q.2))

/-- The key patterns of the `match key` in `PstopConfig::load`. -/
inductive CfgKey
  | tree_view | show_tree_by_default | hide_kernel_threads
  | shadow_other_users | highlight_base_name | show_full_path
  | show_merged_command | highlight_megabytes | highlight_threads
  | header_margin | detailed_cpu_time | cpu_count_from_zero
  | update_process_names | show_thread_names | enable_mouse
  | update_interval_ms | color_scheme | sort_field | sort_ascending
  | visible_columns
deriving DecidableEq

/-- The string dispatch of the `match key` (`src/config.rs:100-147`):
which arm a key string selects, `none` for the `_ => {}` arm. -/
def keyOf (key : Str) : Option CfgKey :=
  if key = "tree_view".toList then some .tree_view
  else if key = "show_tree_by_default".toList then some .show_tree_by_default
  else if key = "hide_kernel_threads".toList then some .hide_kernel_threads
  else if key = "shadow_other_users".toList then some .shadow_other_users
  else if key = "highlight_base_name".toList then some .highlight_base_name
  else if key = "show_full_path".toList then some .show_full_path
  else if key = "show_merged_command".toList then some .show_merged_command
  else if key = "highlight_megabytes".toList then some .highlight_megabytes
  else if key = "highlight_threads".toList then some .highlight_threads
  else if key = "header_margin".toList then some .header_margin
  else if key = "detailed_cpu_time".toList then some .detailed_cpu_time
  else if key = "cpu_count_from_zero".toList then some .cpu_count_from_zero
  else if key = "update_process_names".toList then some .update_process_names
  else if key = "show_thread_names".toList then some .show_thread_names
  else if key = "enable_mouse".toList then some .enable_mouse
  else if key = "update_interval_ms".toList then some .update_interval_ms
  else if key = "color_scheme".toList then some .color_scheme
  else if key = "sort_field".toList then some .sort_field
  else if key = "sort_ascending".toList then some .sort_ascending
  else if key = "visible_columns".toList then some .visible_columns
  else none

/-- The body of each arm of the `match key` (`src/config.rs:100-147`). -/
def applyKnown : CfgKey → PstopConfig → Str → PstopConfig
  | .tree_view, cfg, value => { cfg with tree_view := value == "1".toList }
  | .show_tree_by_default, cfg, value =>
    { cfg with show_tree_by_default := value == "1".toList }
  | .hide_kernel_threads, cfg, value =>
    { cfg with hide_kernel_threads := value == "1".toList }
  | .shadow_other_users, cfg, value =>
    { cfg with shadow_other_users := value == "1".toList }
  | .highlight_base_name, cfg, value =>
    { cfg with highlight_base_name := value == "1".toList }
  | .show_full_path, cfg, value =>
    { cfg with show_full_path := value == "1".toList }
  | .show_merged_command, cfg, value =>
    { cfg with show_merged_command := value == "1".toList }
  | .highlight_megabytes, cfg, value =>
    { cfg with highlight_megabytes := value == "1".toList }
  | .highlight_threads, cfg, value =>
    { cfg with highlight_threads := value == "1".toList }
  | .header_margin, cfg, value =>
    { cfg with header_margin := value == "1".toList }
  | .detailed_cpu_time, cfg, value =>
    { cfg with detailed_cpu_time := value == "1".toList }
  | .cpu_count_from_zero, cfg, value =>
    { cfg with cpu_count_from_zero := value == "1".toList }
  | .update_process_names, cfg, value =>
    { cfg with update_process_names := value == "1".toList }
  | .show_thread_names, cfg, value =>
    { cfg with show_thread_names := value == "1".toList }
  | .enable_mouse, cfg, value =>
    { cfg with enable_mouse := value == "1".toList }
  | .update_interval_ms, cfg, value =>
    (match parseU64 value with
     | some v => { cfg with update_interval_ms := min (max v 200) 10000 }
     | none => cfg)
  | .color_scheme, cfg, value =>
    (match parseU64 value with
     | some idx =>
       { cfg with color_scheme_id := ColorSchemeId.from_index idx }
     | none => cfg)
  | .sort_field, cfg, value =>
    (match parseU64 value with
     | some idx =>
       if idx < ProcessSortField.all.length then
         { cfg with
             sort_field := ProcessSortField.all.getD idx cfg.sort_field }
       else cfg
     | none => cfg)
  | .sort_ascending, cfg, value =>
    { cfg with sort_ascending := value == "1".toList }
  | .visible_columns, cfg, value =>
    let indices :=
      (value.splitOn ',').filterMap (fun t => parseU64 (trimStr t))
    if indices.isEmpty then cfg
    else
      { cfg with visible_columns :=
          ((indices.filter (fun i => i < ProcessSortField.all.length)).map
            (fun i => ProcessSortField.all.getD i .Pid)) }

/-- `match key { ... _ => {} }`: dispatch, unknown keys change nothing. -/
def applyKV (cfg : PstopConfig) (key value : Str) : PstopConfig :=
  match keyOf key with
  | some kk => applyKnown kk cfg value
  | none => cfg

/-- One iteration of the `for line in content.lines()` loop. -/
def applyConfigLine (cfg : PstopConfig) (line : Str) : PstopConfig :=
  match parseLine line with
  | none => cfg
  | some kv => applyKV cfg kv.1 kv.2

/-- `PstopConfig::load`, given the file's lines (the missing-file early
return yields `defaults`, i.e. the empty line list). -/
def PstopConfig.load (content : List Str) : PstopConfig :=
  content.foldl applyConfigLine PstopConfig.defaults

/-- The key strings recognized by `PstopConfig::load`. -/
def knownKeys : List Str :=
  ["tree_view".toList, "show_tree_by_default".toList,
   "hide_kernel_threads".toList, "shadow_other_users".toList,
   "highlight_base_name".toList, "show_full_path".toList,
   "show_merged_command".toList, "highlight_megabytes".toList,
   "highlight_threads".toList, "header_margin".toList,
   "detailed_cpu_time".toList, "cpu_count_from_zero".toList,
   "update_process_names".toList, "show_thread_names".toList,
   "enable_mouse".toList, "update_interval_ms".toList,
   "color_scheme".toList, "sort_field".toList, "sort_ascending".toList,
   "visible_columns".toList]

lemma keyOf_none (k : Str) (hk : k ∉ knownKeys) : keyOf k = none := by
  simp only [knownKeys, List.mem_cons, List.not_mem_nil, or_false,
    not_or] at hk
  obtain ⟨n1, n2, n3, n4, n5, n6, n7, n8, n9, n10, n11, n12, n13, n14, n15,
    n16, n17, n18, n19, n20⟩ := hk
  unfold keyOf
  rw [if_neg n1, if_neg n2, if_neg n3, if_neg n4, if_neg n5, if_neg n6,
    if_neg n7, if_neg n8, if_neg n9, if_neg n10, if_neg n11, if_neg n12,
    if_neg n13, if_neg n14, if_neg n15, if_neg n16, if_neg n17, if_neg n18,
    if_neg n19, if_neg n20]

lemma applyKV_unknown (cfg : PstopConfig) (k v : Str)
    (hk : k ∉ knownKeys) : applyKV cfg k v = cfg := by
  unfold applyKV
  rw [keyOf_none k hk]

lemma applyKV_ui_bounds (cfg : PstopConfig) (k v : Str)
    (h1 : 200 ≤ cfg.update_interval_ms)
    (h2 : cfg.update_interval_ms ≤ 10000) :
    200 ≤ (applyKV cfg k v).update_interval_ms ∧
      (applyKV cfg k v).update_interval_ms ≤ 10000 := by
  unfold applyKV
  cases keyOf k with
  | none => exact ⟨h1, h2⟩
  | some kk =>
    cases kk <;> simp only [applyKnown]
    all_goals try exact ⟨h1, h2⟩
    all_goals try (cases hp : parseU64 v <;> simp only [hp] <;>
      try exact ⟨h1, h2⟩)
    all_goals constructor <;> try split
    all_goals try dsimp only
    all_goals omega

lemma applyConfigLine_ui_bounds (cfg : PstopConfig) (line : Str)
    (h1 : 200 ≤ cfg.update_interval_ms)
    (h2 : cfg.update_interval_ms ≤ 10000) :
    200 ≤ (applyConfigLine cfg line).update_interval_ms ∧
      (applyConfigLine cfg line).update_interval_ms ≤ 10000 := by
  unfold applyConfigLine
  cases parseLine line with
  | none => exact ⟨h1, h2⟩
  | some kv => exact applyKV_ui_bounds cfg kv.1 kv.2 h1 h2

lemma load_ui_bounds_aux (lines : List Str) (cfg : PstopConfig)
    (h1 : 200 ≤ cfg.update_interval_ms)
    (h2 : cfg.update_interval_ms ≤ 10000) :
    200 ≤ (lines.foldl applyConfigLine cfg).update_interval_ms ∧
      (lines.foldl applyConfigLine cfg).update_interval_ms ≤ 10000 := by
  induction lines generalizing cfg with
  | nil => exact ⟨h1, h2⟩
  | cons l ls ih =>
    obtain ⟨g1, g2⟩ := applyConfigLine_ui_bounds cfg l h1 h2
    exact ih _ g1 g2

/-- Claim C10: `PstopConfig::load` ignores lines with unknown keys (loading
with such a line equals loading without it), missing keys keep the
documented defaults (the empty file loads to `defaults`), and for the
refresh-interval key any parsed value is clamped into [200, 10000] while an
unparsable value leaves the default in place; consequently the loaded
interval always lies in [200, 10000]. -/
theorem pstop_config_load_spec :
    (∀ content : List Str,
      200 ≤ (PstopConfig.load content).update_interval_ms ∧
        (PstopConfig.load content).update_interval_ms ≤ 10000) ∧
    PstopConfig.load [] = PstopConfig.defaults ∧
    (∀ (pre post : List Str) (line k v2 : Str),
      parseLine line = some (k, v2) → k ∉ knownKeys →
        PstopConfig.load (pre ++ line :: post) =
          PstopConfig.load (pre ++ post)) ∧
    (∀ (cfg : PstopConfig) (v2 : Str) (n : Nat), parseU64 v2 = some n →
      (applyKV cfg ("update_interval_ms".toList) v2).update_interval_ms =
        min (max n 200) 10000) ∧
    (∀ (cfg : PstopConfig) (v2 : Str), parseU64 v2 = none →
      applyKV cfg ("update_interval_ms".toList) v2 = cfg) := by
  have hkey : keyOf ("update_interval_ms".toList) =
      some CfgKey.update_interval_ms := by rfl
  refine ⟨?_, rfl, ?_, ?_, ?_⟩
  · intro content
    exact load_ui_bounds_aux content _ (by decide) (by decide)
  · intro pre post line k v2 hparse hk
    have hline : ∀ cfg, applyConfigLine cfg line = cfg := by
      intro cfg
      unfold applyConfigLine
      rw [hparse]
      exact applyKV_unknown _ _ _ hk
    unfold PstopConfig.load
    rw [List.foldl_append, List.foldl_cons, hline, ← List.foldl_append]
  · intro cfg v2 n h
    unfold applyKV
    rw [hkey]
    simp only [applyKnown]
    rw [h]
  · intro cfg v2 h
    unfold applyKV
    rw [hkey]
    simp only [applyKnown]
    rw [h]

theorem pstop_config_load_spec_witness :
    parseLine ("bogus_key=7".toList) =
        some ("bogus_key".toList, "7".toList) ∧
    "bogus_key".toList ∉ knownKeys ∧
    PstopConfig.load ([] ++ ("bogus_key=7".toList) :: []) =
      PstopConfig.load ([] ++ []) ∧
    (applyKV PstopConfig.defaults ("update_interval_ms".toList)
        ("50".toList)).update_interval_ms = min (max 50 200) 10000 ∧
    applyKV PstopConfig.defaults ("update_interval_ms".toList)
        ("abc".toList) = PstopConfig.defaults :=
  ⟨by decide, by decide,
    pstop_config_load_spec.2.2.1 [] [] ("bogus_key=7".toList)
      ("bogus_key".toList) ("7".toList) (by decide) (by decide),
    pstop_config_load_spec.2.2.2.1 _ _ 50 (by decide),
    pstop_config_load_spec.2.2.2.2 _ _ (by decide)⟩

/-! ## Tree view (`App::build_tree_view`, `src/app.rs:473-527`) -/

/-- The root test of `build_tree_view`: parent pid is 0 or absent from the
filtered pid set (`all_pids`). -/
def isRootAt (ps : List ProcessInfo) (i : Nat) : Bool :=
  let p := ps.getD i default
  p.ppid == 0 || !(ps.any (fun q => q.pid == p.ppid))

/-- `root_indices`: the indices pushed as roots, in list order. -/
def rootIndices (ps : List ProcessInfo) : List Nat :=
  (List.range ps.length).filter (isRootAt ps)

/-- `children_map[pid]`: the indices pushed as children of `pid`, in list
order (the loop at `src/app.rs:480-486` pushes increasing `i`). -/
def childrenOf (ps : List ProcessInfo) (pid : Nat) : List Nat :=
  (List.range ps.length).filter (fun i =>
    !isRootAt ps i && (ps.getD i default).ppid == pid)

/-- The `dfs` of `build_tree_view`: emit `(idx, depth, is_last)`, then,
unless the pid is collapsed, recurse into the children in `enumerate()`
order with `is_last = (ci == len - 1)`. `fuel` is a modelling artifact
bounding recursion depth; `build_tree_view` passes `ps.length`, which the
acyclicity theorems show is never exhausted. -/
def dfsAux (ps : List ProcessInfo) (collapsed : List Nat) :
    Nat → Nat → Nat → Bool → List (Nat × Nat × Bool)
  | 0, _, _, _ => []
  | fuel + 1, idx, depth, isLast =>
    (idx, depth, isLast) ::
      (if collapsed.contains (ps.getD idx default).pid then []
       else
         (((childrenOf ps (ps.getD idx default).pid).enum.map (fun e =>
             dfsAux ps collapsed fuel e.2 (depth + 1)
               (e.1 ==
                 (childrenOf ps (ps.getD idx default).pid).length - 1)))).flatten)

/-- The child loop of `dfs` unrolled: a recursion equivalent of the
`enumerate()`-indexed `map`/`flatten` in `dfsAux` (see
`dfsAux_succ`), convenient for induction. -/
def dfsChildren (ps : List ProcessInfo) (collapsed : List Nat)
    (fuel : Nat) : List Nat → Nat → Nat → Nat → List (Nat × Nat × Bool)
  | [], _, _, _ => []
  | cIdx :: rest, ci, total, depth =>
    dfsAux ps collapsed fuel cIdx depth (ci == total - 1) ++
      dfsChildren ps collapsed fuel rest (ci + 1) total depth

lemma enumFrom_map_flatten_eq_dfsChildren (ps : List ProcessInfo)
    (collapsed : List Nat) (fuel total depth : Nat) :
    ∀ (cs : List Nat) (ci : Nat),
      ((cs.enumFrom ci).map (fun e =>
          dfsAux ps collapsed fuel e.2 depth (e.1 == total - 1))).flatten =
        dfsChildren ps collapsed fuel cs ci total depth := by
  intro cs
  induction cs with
  | nil => intro ci; rfl
  | cons c rest ih =>
    intro ci
    simp only [List.enumFrom_cons, List.map_cons, List.flatten_cons,
      dfsChildren]
    rw [ih]

/-- Unfolding of `dfsAux` at positive fuel, phrased with `dfsChildren`. -/
lemma dfsAux_succ (ps : List ProcessInfo) (collapsed : List Nat)
    (fuel idx depth : Nat) (isLast : Bool) :
    dfsAux ps collapsed (fuel + 1) idx depth isLast =
      (idx, depth, isLast) ::
        (if collapsed.contains (ps.getD idx default).pid then []
         else dfsChildren ps collapsed fuel
           (childrenOf ps (ps.getD idx default).pid) 0
           (childrenOf ps (ps.getD idx default).pid).length (depth + 1)) := by
  rw [dfsAux]
  congr 1
  split
  · rfl
  · rw [show (childrenOf ps (ps.getD idx default).pid).enum =
        (childrenOf ps (ps.getD idx default).pid).enumFrom 0 from rfl,
      enumFrom_map_flatten_eq_dfsChildren]

/-- The root loop of `build_tree_view` (`src/app.rs:513-516`). -/
def dfsRoots (ps : List ProcessInfo) (collapsed : List Nat) (fuel : Nat) :
    List Nat → Nat → Nat → List (Nat × Nat × Bool)
  | [], _, _ => []
  | r :: rest, ri, total =>
    dfsAux ps collapsed fuel r 0 (ri == total - 1) ++
      dfsRoots ps collapsed fuel rest (ri + 1) total

/-- `App::build_tree_view` on the filtered list: preorder traversal, then
rebuild the list with `depth`/`is_last_child` annotations. -/
def build_tree_view (collapsed : List Nat) (ps : List ProcessInfo) :
    List ProcessInfo :=
  let roots := rootIndices ps
  let ordered := dfsRoots ps collapsed ps.length roots 0 roots.length
  ordered.map (fun e =>
    { ps.getD e.1 default with depth := e.2.1, is_last_child := e.2.2 })

/-- `App::build_tree_view` acting on the state. -/
def buildTreeViewApp (s : AppState) : AppState :=
  { s with filtered_processes :=
      build_tree_view s.collapsed_pids s.filtered_processes }

/-! ## Collector (`src/system/collector.rs`) -/

/-- `HashMap::get`, on an association-list model. -/
def alGet {α β : Type} [DecidableEq α] (k : α) : List (α × β) → Option β
  | [] => none
  | (k', v) :: rest => if k = k' then some v else alGet k rest

/-- `HashMap::insert` (replace in place or append). -/
def alPut {α β : Type} [DecidableEq α] (k : α) (v : β) :
    List (α × β) → List (α × β)
  | [] => [(k, v)]
  | (k', v') :: rest =>
    if k = k' then (k, v) :: rest else (k', v') :: alPut k v rest

/-- `src/system/winapi.rs` `WinProcessData`. -/
structure WinProcessData where
  priority : Int
  nice : Int
  thread_count : Nat
  private_working_set : Nat
deriving DecidableEq

/-- `src/system/winapi.rs` `ThreadInfo`. -/
structure ThreadInfo where
  thread_id : Nat
  owner_pid : Nat
  base_priority : Int
  name : Str
deriving DecidableEq

/-- `sysinfo::ProcessStatus`, restricted to the arms `collect_processes`
distinguishes (everything else hits the `_` arm). -/
inductive SysStatus
  | Run | Sleep | Stop | Zombie | Other
deriving DecidableEq

/-- The per-process tuple built at `src/system/collector.rs:277-303` from
the `sysinfo` snapshot (pid, ppid, name, command, status, virtual/resident
memory, raw cpu%, memory%, run time). The string/percentage extraction from
the OS snapshot is oracle data. -/
structure RawProc where
  pid : Nat
  ppid : Nat
  name : Str
  command : Str
  status : SysStatus
  virt : Nat
  resident : Nat
  cpu_usage : ℚ
  mem_pct : ℚ
  run_time : Nat
deriving DecidableEq

/-- The mutable fields of `Collector` (`src/system/collector.rs:15-44`)
touched by a sample pass. The `sysinfo` handles and the GPU collector's
PDH query are the oracle's concern. -/
structure CollectorState where
  user_name_cache : List (Nat × Str)
  win_data_cache : List (Nat × WinProcessData)
  win_data_cache_ticks : Nat
  prev_io_counters : List (Nat × (Nat × Nat × ℚ))
  prev_net_rx : Nat
  prev_net_tx : Nat
  prev_net_time : Option ℚ
  load_samples_1 : ℚ
  load_samples_5 : ℚ
  load_samples_15 : ℚ
  cpu_user_frac : ℚ
  cpu_kernel_frac : ℚ
deriving DecidableEq

/-- Everything one `Collector::refresh` pass reads from the OS, as pure
oracle data: the `sysinfo` refresh results, Win32 batch queries, thread
enumeration, timestamps, and the Net/GPU tab sources. `alpha1/5/15` stand
for the three `1 - exp(-1/T)` EMA constants of `compute_load_average`
(irrational `f64` values, abstracted as constants). -/
structure OsSample where
  cpus : List (ℚ × Nat)
  brand : Str
  physical_cores : Option Nat
  total_memory : Nat
  used_memory : Nat
  available_memory : Nat
  total_swap : Nat
  used_swap : Nat
  free_swap : Nat
  net_totals : List (Nat × Nat)
  now : ℚ
  rawProcs : List RawProc
  winData : List (Nat × WinProcessData)
  userNames : List (Nat × Str)
  ioCounters : List (Nat × (Nat × Nat))
  procTimes : List (Nat × Nat)
  threadsOf : Nat → Bool → List ThreadInfo
  uptime : Nat
  userFrac : ℚ
  kernelFrac : ℚ
  connCounts : List (Nat × Nat)
  gpuProcs : List GpuProcessInfo
  gpuOverall : ℚ
  gpuDedicated : Nat
  gpuShared : Nat
  alpha1 : ℚ
  alpha5 : ℚ
  alpha15 : ℚ

/-- `collect_cpu` (`src/system/collector.rs:179-207`). -/
def collect_cpu (os : OsSample) (a : AppState) : AppState :=
  let cores := os.cpus.enum.map (fun e =>
    { id := e.1, usage_percent := e.2.1, frequency_mhz := e.2.2 : CpuCore })
  let total := if cores.isEmpty then 0
    else (cores.map (·.usage_percent)).sum / (cores.length : ℚ)
  { a with cpu_info :=
      { physical_cores := os.physical_cores.getD cores.length
        logical_cores := cores.length
        total_usage := total
        brand := os.brand
        cores := cores } }

/-- `collect_memory` (`src/system/collector.rs:209-228`). -/
def collect_memory (os : OsSample) (a : AppState) : AppState :=
  let free := os.total_memory - os.used_memory
  let cached := os.available_memory - free
  { a with memory_info :=
      { total_mem := os.total_memory
        used_mem := os.used_memory
        free_mem := free
        cached_mem := cached
        buffered_mem := 0
        total_swap := os.total_swap
        used_swap := os.used_swap
        free_swap := os.free_swap } }

/-- `collect_network` (`src/system/collector.rs:230-267`): sum interface
totals, derive rates from the previous totals, update the previous-sample
fields. -/
def collect_network (os : OsSample) (c : CollectorState) (a : AppState) :
    CollectorState × AppState :=
  let total_rx := (os.net_totals.map (·.1)).sum
  let total_tx := (os.net_totals.map (·.2)).sum
  let rates :=
    match c.prev_net_time with
    | some prev_time =>
      let elapsed := max (os.now - prev_time) 0
      if 0 < elapsed then
        (((total_rx - c.prev_net_rx : Nat) : ℚ) / elapsed,
         ((total_tx - c.prev_net_tx : Nat) : ℚ) / elapsed)
      else (0, 0)
    | none => (0, 0)
  ({ c with
      prev_net_rx := total_rx
      prev_net_tx := total_tx
      prev_net_time := some os.now },
   { a with network_info :=
      { rx_bytes_per_sec := rates.1
        tx_bytes_per_sec := rates.2
        total_rx := total_rx
        total_tx := total_tx } })

/-- The win-data/user-name cache refresh test of `collect_processes`
(`src/system/collector.rs:308`): `ticks == 0 || ticks % 3 == 0`. -/
def winRefreshNow (t : Nat) : Bool := t == 0 || t % 3 == 0

/-- The per-process CPU-time fetch test (`src/system/collector.rs:320`):
the counter has already been incremented at line 313, so with `t` the
counter value at entry the test `ticks % 3 == 1` reads `(t+1) % 3 == 1`. -/
def timesNow (t : Nat) : Bool := (t + 1) % 3 == 1

/-- The I/O rate computation for one process
(`src/system/collector.rs:363-377`): `saturating_sub` deltas divided by
the elapsed time since the cached previous counters; no previous entry or
zero elapsed yields 0. -/
def ioRates (prev : Option (Nat × Nat × ℚ)) (curRead curWrite : Nat)
    (now : ℚ) : ℚ × ℚ :=
  match prev with
  | some (prevRead, prevWrite, prevTime) =>
    let elapsed := max (now - prevTime) 0
    if 0 < elapsed then
      (((curRead - prevRead : Nat) : ℚ) / elapsed,
       ((curWrite - prevWrite : Nat) : ℚ) / elapsed)
    else (0, 0)
  | none => (0, 0)

/-- One iteration of the merge loop of `collect_processes`
(`src/system/collector.rs:330-408`). The accumulator carries the process
list, the I/O cache being updated, and the running/sleeping/thread
counters. -/
def collectStep (winCache : List (Nat × WinProcessData))
    (userCache : List (Nat × Str)) (ioCounters : List (Nat × (Nat × Nat)))
    (times : List (Nat × Nat)) (uptime : Nat) (now : ℚ)
    (st : List ProcessInfo × List (Nat × (Nat × Nat × ℚ)) × Nat × Nat × Nat)
    (r : RawProc) :
    List ProcessInfo × List (Nat × (Nat × Nat × ℚ)) × Nat × Nat × Nat :=
  let (procs, prevIo, running, sleeping, tthreads) := st
  let status : PStatus × Nat × Nat :=
    match r.status with
    | .Run => (.Running, running + 1, sleeping)
    | .Sleep => (.Sleeping, running, sleeping + 1)
    | .Stop => (.Stopped, running, sleeping)
    | .Zombie => (.Zombie, running, sleeping)
    | .Other => (.Sleeping, running, sleeping + 1)
  let user := (alGet r.pid userCache).getD ("SYSTEM".toList)
  let wd := alGet r.pid winCache
  let priority := (wd.map (·.priority)).getD 8
  let nice := (wd.map (·.nice)).getD 0
  let threads := (wd.map (·.thread_count)).getD 1
  let privWs := (wd.map (·.private_working_set)).getD 0
  let io := (alGet r.pid ioCounters).getD (0, 0)
  let rates := ioRates (alGet r.pid prevIo) io.1 io.2 now
  let p : ProcessInfo :=
    { pid := r.pid
      ppid := r.ppid
      name := r.name
      command := r.command
      user := user
      status := status.1
      priority := priority
      nice := nice
      virtual_mem := r.virt
      resident_mem := r.resident
      shared_mem := r.resident - privWs
      cpu_usage := r.cpu_usage
      mem_usage := r.mem_pct
      run_time := min r.run_time uptime
      cpu_time_100ns := (alGet r.pid times).getD 0
      threads := threads
      io_read_rate := rates.1
      io_write_rate := rates.2
      depth := 0
      is_last_child := false }
  (procs ++ [p], alPut r.pid (io.1, io.2, now) prevIo,
    status.2.1, status.2.2, tthreads + threads)

/-- The thread pseudo-entry pushed per enumerated thread when
`show_threads` is on (`src/system/collector.rs:414-449`). -/
def threadEntry (ownerPid : Nat) (ti : ThreadInfo) : ProcessInfo :=
  { pid := ti.thread_id
    ppid := ownerPid
    name := if !ti.name.isEmpty then ti.name
      else ("tid:".toList ++ Nat.toDigits 10 ti.thread_id)
    command := []
    user := []
    status := .Running
    priority := ti.base_priority
    nice := 0
    virtual_mem := 0
    resident_mem := 0
    shared_mem := 0
    cpu_usage := 0
    mem_usage := 0
    run_time := 0
    cpu_time_100ns := 0
    threads := 0
    io_read_rate := 0
    io_write_rate := 0
    depth := 1
    is_last_child := false }

/-- `collect_processes` (`src/system/collector.rs:269-459`). -/
def collect_processes (os : OsSample) (c : CollectorState) (a : AppState) :
    CollectorState × AppState :=
  let t := c.win_data_cache_ticks
  let winCache := if winRefreshNow t then os.winData else c.win_data_cache
  let userCache := if winRefreshNow t then os.userNames
    else c.user_name_cache
  let ioCounters := os.ioCounters
  let times := if timesNow t then os.procTimes else []
  let currentPids := os.rawProcs.map (·.pid)
  let st := os.rawProcs.foldl
    (collectStep winCache userCache ioCounters times os.uptime os.now)
    ([], c.prev_io_counters, 0, 0, 0)
  let prevIo := st.2.1.filter (fun e => currentPids.contains e.1)
  let processes :=
    if a.show_threads then
      (st.1.map (fun p =>
        p :: (os.threadsOf p.pid a.show_thread_names).map
          (threadEntry p.pid))).flatten
    else st.1
  ({ c with
      user_name_cache := userCache
      win_data_cache := winCache
      win_data_cache_ticks := t + 1
      prev_io_counters := prevIo },
   { a with
      processes := processes
      total_tasks := processes.length
      running_tasks := st.2.2.1
      sleeping_tasks := st.2.2.2.1
      total_threads := st.2.2.2.2 })

/-- `collect_uptime` (`src/system/collector.rs:473-475`); `real_uptime`
is oracle data. -/
def collect_uptime (os : OsSample) (a : AppState) : AppState :=
  { a with uptime_seconds := os.uptime }

/-- `compute_load_average` (`src/system/collector.rs:479-496`), with the
three EMA constants abstracted in the oracle. -/
def compute_load_average (os : OsSample) (c : CollectorState)
    (a : AppState) : CollectorState × AppState :=
  let num_cores : ℚ := (max a.cpu_info.cores.length 1 : Nat)
  let current := a.cpu_info.total_usage / 100 * num_cores
  let l1 := c.load_samples_1 + os.alpha1 * (current - c.load_samples_1)
  let l5 := c.load_samples_5 + os.alpha5 * (current - c.load_samples_5)
  let l15 := c.load_samples_15 + os.alpha15 * (current - c.load_samples_15)
  ({ c with
      load_samples_1 := l1
      load_samples_5 := l5
      load_samples_15 := l15 },
   { a with load_avg_1 := l1, load_avg_5 := l5, load_avg_15 := l15 })

/-- The Net-tab branch of `refresh` (`src/system/collector.rs:122-156`). -/
def netTabRefresh (os : OsSample) (a : AppState) : AppState :=
  let net_procs := os.connCounts.map (fun e =>
    match a.processes.find? (fun p => p.pid == e.1) with
    | some p =>
      { pid := e.1, name := p.name, recv_bytes_per_sec := p.io_read_rate,
        send_bytes_per_sec := p.io_write_rate, connection_count := e.2
        : ProcessNetBandwidth }
    | none =>
      { pid := e.1
        name := if e.1 == 4 then "System".toList
          else ("PID:".toList ++ Nat.toDigits 10 e.1)
        recv_bytes_per_sec := 0
        send_bytes_per_sec := 0
        connection_count := e.2 })
  { a with net_processes :=
      (net_procs.insertionSort (fun x y =>
        (((cmp3 (y.recv_bytes_per_sec + y.send_bytes_per_sec)
            (x.recv_bytes_per_sec + x.send_bytes_per_sec)).then
          (cmp3 y.connection_count x.connection_count)) != Ordering.gt)
          = true)) }

/-- The GPU-tab branch of `refresh` (`src/system/collector.rs:158-172`);
the adapter-name lookup is presentation-only and not modelled. -/
def gpuTabRefresh (os : OsSample) (a : AppState) : AppState :=
  { a with
      gpu_processes :=
        (os.gpuProcs.insertionSort (fun x y =>
          ((cmp3 y.gpu_usage x.gpu_usage) != Ordering.gt) = true))
      gpu_overall_usage := os.gpuOverall
      gpu_dedicated_mem := os.gpuDedicated
      gpu_shared_mem := os.gpuShared }

/-- `Collector::refresh` (`src/system/collector.rs:84-177`): the paused
guard, then the full sample-and-transform pipeline in program order. -/
def refresh (os : OsSample) (c : CollectorState) (a : AppState) :
    CollectorState × AppState :=
  if a.paused then (c, a)
  else
    let c1 := { c with
      cpu_user_frac := os.userFrac
      cpu_kernel_frac := os.kernelFrac }
    let a1 := collect_cpu os a
    let a2 := collect_memory os a1
    let ca3 := collect_network os c1 a2
    let ca4 := collect_processes os ca3.1 ca3.2
    let a5 := collect_uptime os ca4.2
    let ca6 := compute_load_average os ca4.1 a5
    let a7 := { ca6.2 with
      cpu_user_frac := ca6.1.cpu_user_frac
      cpu_kernel_frac := ca6.1.cpu_kernel_frac }
    let a8 := collect_users a7
    let a9 := applyFilterApp a8
    let a10 := sort_processes a9
    let a11 := if a10.tree_view then buildTreeViewApp a10 else a10
    let a12 := if a11.active_tab = .Net then netTabRefresh os a11 else a11
    let a13 := if a12.active_tab = .Gpu then gpuTabRefresh os a12 else a12
    let a14 := follow_process a13
    let a15 := clamp_selection a14
    (ca6.1, { a15 with tick := a15.tick + 1 })

/-- `Collector::new()` (`src/system/collector.rs:47-81`), restricted to
the modelled fields. -/
def collector_new : CollectorState where
  user_name_cache := []
  win_data_cache := []
  win_data_cache_ticks := 0
  prev_io_counters := []
  prev_net_rx := 0
  prev_net_tx := 0
  prev_net_time := none
  load_samples_1 := 0
  load_samples_5 := 0
  load_samples_15 := 0
  cpu_user_frac := 7/10
  cpu_kernel_frac := 3/10

/-- A trivial OS sample (empty system) for concrete witnesses. -/
def osW : OsSample where
  cpus := []
  brand := []
  physical_cores := none
  total_memory := 0
  used_memory := 0
  available_memory := 0
  total_swap := 0
  used_swap := 0
  free_swap := 0
  net_totals := []
  now := 1
  rawProcs := []
  winData := []
  userNames := []
  ioCounters := []
  procTimes := []
  threadsOf := fun _ _ => []
  uptime := 0
  userFrac := 0
  kernelFrac := 0
  connCounts := []
  gpuProcs := []
  gpuOverall := 0
  gpuDedicated := 0
  gpuShared := 0
  alpha1 := 0
  alpha5 := 0
  alpha15 := 0

/-- Claim C8: with the pause flag set, `Collector::refresh` returns
immediately: every collector cache (I/O counter cache, win-data and
user-name caches, network totals, load samples) and every `App` field are
unchanged, and the result does not depend on the OS sample at all — no
sampling is consumed. -/
theorem refresh_paused_noop (os os' : OsSample) (c : CollectorState)
    (a : AppState) (h : a.paused = true) :
    refresh os c a = (c, a) ∧ refresh os c a = refresh os' c a := by
  constructor
  · simp [refresh, h]
  · simp [refresh, h]

/-- The paused state used to exercise `refresh_paused_noop`. -/
def pausedW : AppState := { app_new with paused := true, tick := 7 }

theorem refresh_paused_noop_witness :
    pausedW.paused = true ∧
    refresh osW collector_new pausedW = (collector_new, pausedW) :=
  ⟨rfl, (refresh_paused_noop osW osW collector_new pausedW rfl).1⟩

/-- In-range consequences of `clamp_selection` for the three tabs. -/
lemma clamp_selection_in_range (s : AppState) :
    ((clamp_selection s).filtered_processes.isEmpty = true →
      (clamp_selection s).selected_index = 0 ∧
      (clamp_selection s).scroll_offset = 0) ∧
    ((clamp_selection s).filtered_processes.isEmpty = false →
      (clamp_selection s).selected_index <
        (clamp_selection s).filtered_processes.length) ∧
    ((clamp_selection s).connections.isEmpty = true →
      (clamp_selection s).net_selected_index = 0 ∧
      (clamp_selection s).net_scroll_offset = 0) ∧
    ((clamp_selection s).connections.isEmpty = false →
      (clamp_selection s).net_selected_index <
        (clamp_selection s).connections.length) ∧
    ((clamp_selection s).gpu_processes.isEmpty = true →
      (clamp_selection s).gpu_selected_index = 0 ∧
      (clamp_selection s).gpu_scroll_offset = 0) ∧
    ((clamp_selection s).gpu_processes.isEmpty = false →
      (clamp_selection s).gpu_selected_index <
        (clamp_selection s).gpu_processes.length) := by
  obtain ⟨hf, hc, hg, e1, e2, e3, e4, e5, e6⟩ := clamp_selection_char s
  rw [hf, hc, hg, e1, e2, e3, e4, e5, e6]
  refine ⟨?_, ?_, ?_, ?_, ?_, ?_⟩ <;> intro hemp <;> rw [hemp]
  · simp
  · have hne : s.filtered_processes ≠ [] := by
      intro h0
      rw [h0] at hemp
      simp at hemp
    have hpos : 0 < s.filtered_processes.length := List.length_pos.mpr hne
    simp only [Bool.false_eq_true, if_false]
    omega
  · simp
  · have hne : s.connections ≠ [] := by
      intro h0
      rw [h0] at hemp
      simp at hemp
    have hpos : 0 < s.connections.length := List.length_pos.mpr hne
    simp only [Bool.false_eq_true, if_false]
    omega
  · simp
  · have hne : s.gpu_processes ≠ [] := by
      intro h0
      rw [h0] at hemp
      simp at hemp
    have hpos : 0 < s.gpu_processes.length := List.length_pos.mpr hne
    simp only [Bool.false_eq_true, if_false]
    omega

/-- A state in which the filtered list just shrank (a filter edit left one
process) while selection and scroll still point past it. -/
def c9s : AppState :=
  { app_new with
      filtered_processes := [(default : ProcessInfo)]
      selected_index := 3
      scroll_offset := 5 }

/-- Counterexample to claim C9 as stated: `clamp_selection` on a non-empty
(length-1) list clamps the selection index to 0 but leaves the scroll
offset at 5 — the scroll offset is not within the list's range. -/
theorem clamp_selection_scroll_out_of_range :
    (clamp_selection c9s).filtered_processes.length = 1 ∧
    (clamp_selection c9s).selected_index = 0 ∧
    (clamp_selection c9s).scroll_offset = 5 ∧
    ¬((clamp_selection c9s).scroll_offset <
        (clamp_selection c9s).filtered_processes.length) := by decide

/-- Claim C9 (amended): `clamp_selection` clamps each tab's selection
index (to at most length−1 on a non-empty list, to 0 with scroll 0 on an
empty one) but resets the scroll offset only for an empty list — on a
non-empty list the scroll offset is left unchanged and may remain out of
range; and after every unpaused sample pass (`refresh` ends in
`clamp_selection`) the selection indices of all three tabs are in range
and empty lists have zeroed selection and scroll. -/
theorem clamp_selection_spec :
    (∀ s : AppState,
      (clamp_selection s).selected_index =
        (if s.filtered_processes.isEmpty then 0
         else min s.selected_index (s.filtered_processes.length - 1)) ∧
      (clamp_selection s).scroll_offset =
        (if s.filtered_processes.isEmpty then 0 else s.scroll_offset) ∧
      (clamp_selection s).net_selected_index =
        (if s.connections.isEmpty then 0
         else min s.net_selected_index (s.connections.length - 1)) ∧
      (clamp_selection s).net_scroll_offset =
        (if s.connections.isEmpty then 0 else s.net_scroll_offset) ∧
      (clamp_selection s).gpu_selected_index =
        (if s.gpu_processes.isEmpty then 0
         else min s.gpu_selected_index (s.gpu_processes.length - 1)) ∧
      (clamp_selection s).gpu_scroll_offset =
        (if s.gpu_processes.isEmpty then 0 else s.gpu_scroll_offset)) ∧
    (∀ (os : OsSample) (c : CollectorState) (a : AppState),
      a.paused = false →
      (((refresh os c a).2.filtered_processes.isEmpty = true →
        (refresh os c a).2.selected_index = 0 ∧
        (refresh os c a).2.scroll_offset = 0) ∧
       ((refresh os c a).2.filtered_processes.isEmpty = false →
        (refresh os c a).2.selected_index <
          (refresh os c a).2.filtered_processes.length) ∧
       ((refresh os c a).2.connections.isEmpty = true →
        (refresh os c a).2.net_selected_index = 0 ∧
        (refresh os c a).2.net_scroll_offset = 0) ∧
       ((refresh os c a).2.connections.isEmpty = false →
        (refresh os c a).2.net_selected_index <
          (refresh os c a).2.connections.length) ∧
       ((refresh os c a).2.gpu_processes.isEmpty = true →
        (refresh os c a).2.gpu_selected_index = 0 ∧
        (refresh os c a).2.gpu_scroll_offset = 0) ∧
       ((refresh os c a).2.gpu_processes.isEmpty = false →
        (refresh os c a).2.gpu_selected_index <
          (refresh os c a).2.gpu_processes.length))) := by
  constructor
  · intro s
    obtain ⟨_, _, _, e1, e2, e3, e4, e5, e6⟩ := clamp_selection_char s
    exact ⟨e1, e2, e3, e4, e5, e6⟩
  · intro os c a h
    simp only [refresh, h, Bool.false_eq_true, if_false]
    exact clamp_selection_in_range _

theorem clamp_selection_spec_witness :
    ((clamp_selection c9s).selected_index =
      (if c9s.filtered_processes.isEmpty then 0
       else min c9s.selected_index (c9s.filtered_processes.length - 1))) ∧
    app_new.paused = false ∧
    (refresh osW collector_new app_new).2.filtered_processes.isEmpty
      = true ∧
    ((refresh osW collector_new app_new).2.selected_index = 0 ∧
      (refresh osW collector_new app_new).2.scroll_offset = 0) :=
  ⟨(clamp_selection_spec.1 c9s).1, rfl, by decide,
    (clamp_selection_spec.2 osW collector_new app_new rfl).1 (by decide)⟩

/-! ## Per-connection bandwidth tracker (`src/system/netstat.rs`) -/

/-- `ConnKey` (`src/system/netstat.rs:242-246`): identity of a connection.
The `[u8; 16]` v6 addresses are modelled by their numeric value; scope ids
are not part of the key, as in the source. -/
inductive ConnKey
  | V4 (laddr lport raddr rport : Nat)
  | V6 (laddr lport raddr rport : Nat)
deriving DecidableEq

/-- `TcpV4` rows from `GetExtendedTcpTable`. -/
structure TcpConn4 where
  state : Nat
  laddr : Nat
  lport : Nat
  raddr : Nat
  rport : Nat
  pid : Nat
deriving DecidableEq

/-- `TcpV6` rows. -/
structure TcpConn6 where
  state : Nat
  laddr : Nat
  lscope : Nat
  lport : Nat
  raddr : Nat
  rscope : Nat
  rport : Nat
  pid : Nat
deriving DecidableEq

def TcpConn4.key (c : TcpConn4) : ConnKey :=
  .V4 c.laddr c.lport c.raddr c.rport

def TcpConn6.key (c : TcpConn6) : ConnKey :=
  .V6 c.laddr c.lport c.raddr c.rport

/-- `NetBandwidthTracker` (`src/system/netstat.rs:26-35`); `last_poll` is
subsumed by the oracle's `elapsed`. -/
structure NetTracker where
  prev_bytes : List (ConnKey × Nat × Nat)
  enabled_set : List ConnKey
  admin_ok : Option Bool
deriving DecidableEq

/-- `Accum` (`src/system/netstat.rs:219-231`). -/
structure Accum where
  name : Str
  din : Nat
  dout : Nat
  tcp : Nat
  udp : Nat
deriving DecidableEq

def Accum.new (name : Str) : Accum :=
  { name := name, din := 0, dout := 0, tcp := 0, udp := 0 }

/-- `fallback_name` (`src/system/netstat.rs:233-239`). -/
def fallback_name (pid : Nat) : Str :=
  if pid = 0 then "System Idle".toList
  else if pid = 4 then "System".toList
  else "PID:".toList ++ Nat.toDigits 10 pid

/-- OS data consumed by one `collect` poll; the EStats enable/read calls
are oracle functions of the row. -/
structure NetOracle where
  elapsed : ℚ
  tcp4 : List TcpConn4
  tcp6 : List TcpConn6
  udp4 : List (Nat × Nat)
  udp6 : List (Nat × Nat)
  set4 : TcpConn4 → Bool
  get4 : TcpConn4 → Option (Nat × Nat)
  set6 : TcpConn6 → Bool
  get6 : TcpConn6 → Option (Nat × Nat)

/-- `probe_v4` (`src/system/netstat.rs:145-176`): enable EStats if needed
(possibly settling `admin_ok`), then, when admin is confirmed, read the
cumulative bytes, accumulate the `saturating_sub` deltas against
`prev_bytes`, and store the new cumulative values. -/
def probe_v4 (o : NetOracle) (c : TcpConn4) (key : ConnKey)
    (tr : NetTracker) (acc : Accum) : NetTracker × Accum :=
  let step1 : NetTracker × Bool :=
    if key ∈ tr.enabled_set then (tr, true)
    else if o.set4 c then
      ({ tr with
          enabled_set := tr.enabled_set ++ [key]
          admin_ok := if tr.admin_ok = none then some true
            else tr.admin_ok }, true)
    else if tr.admin_ok = none then
      ({ tr with admin_ok := some false }, false)
    else (tr, true)
  if step1.2 = false then (step1.1, acc)
  else if step1.1.admin_ok = some true then
    match o.get4 c with
    | some bio =>
      let prev := (alGet key step1.1.prev_bytes).getD (0, 0)
      ({ step1.1 with
          prev_bytes := alPut key (bio.1, bio.2) step1.1.prev_bytes },
       { acc with
          din := acc.din + (bio.1 - prev.1)
          dout := acc.dout + (bio.2 - prev.2) })
    | none => (step1.1, acc)
  else (step1.1, acc)

/-- `probe_v6` (`src/system/netstat.rs:180-211`): identical logic. -/
def probe_v6 (o : NetOracle) (c : TcpConn6) (key : ConnKey)
    (tr : NetTracker) (acc : Accum) : NetTracker × Accum :=
  let step1 : NetTracker × Bool :=
    if key ∈ tr.enabled_set then (tr, true)
    else if o.set6 c then
      ({ tr with
          enabled_set := tr.enabled_set ++ [key]
          admin_ok := if tr.admin_ok = none then some true
            else tr.admin_ok }, true)
    else if tr.admin_ok = none then
      ({ tr with admin_ok := some false }, false)
    else (tr, true)
  if step1.2 = false then (step1.1, acc)
  else if step1.1.admin_ok = some true then
    match o.get6 c with
    | some bio =>
      let prev := (alGet key step1.1.prev_bytes).getD (0, 0)
      ({ step1.1 with
          prev_bytes := alPut key (bio.1, bio.2) step1.1.prev_bytes },
       { acc with
          din := acc.din + (bio.1 - prev.1)
          dout := acc.dout + (bio.2 - prev.2) })
    | none => (step1.1, acc)
  else (step1.1, acc)

/-- One iteration of the TCP v4 loop of `collect`
(`src/system/netstat.rs:71-84`). -/
def tcp4Step (o : NetOracle) (tryStats : Bool)
    (pidNames : List (Nat × Str))
    (st : List ConnKey × List (Nat × Accum) × NetTracker) (c : TcpConn4) :
    List ConnKey × List (Nat × Accum) × NetTracker :=
  let key := c.key
  let a0 := (alGet c.pid st.2.1).getD
    (Accum.new ((alGet c.pid pidNames).getD (fallback_name c.pid)))
  let a1 := { a0 with tcp := a0.tcp + 1 }
  let pr := if tryStats && c.state == 5 then probe_v4 o c key st.2.2 a1
    else (st.2.2, a1)
  (st.1 ++ [key], alPut c.pid pr.2 st.2.1, pr.1)

/-- One iteration of the TCP v6 loop (`src/system/netstat.rs:87-99`). -/
def tcp6Step (o : NetOracle) (tryStats : Bool)
    (pidNames : List (Nat × Str))
    (st : List ConnKey × List (Nat × Accum) × NetTracker) (c : TcpConn6) :
    List ConnKey × List (Nat × Accum) × NetTracker :=
  let key := c.key
  let a0 := (alGet c.pid st.2.1).getD
    (Accum.new ((alGet c.pid pidNames).getD (fallback_name c.pid)))
  let a1 := { a0 with tcp := a0.tcp + 1 }
  let pr := if tryStats && c.state == 5 then probe_v6 o c key st.2.2 a1
    else (st.2.2, a1)
  (st.1 ++ [key], alPut c.pid pr.2 st.2.1, pr.1)

/-- One iteration of the UDP count loops
(`src/system/netstat.rs:102-111`). -/
def udpStep (pidNames : List (Nat × Str)) (m : List (Nat × Accum))
    (e : Nat × Nat) : List (Nat × Accum) :=
  let a0 := (alGet e.1 m).getD
    (Accum.new ((alGet e.1 pidNames).getD (fallback_name e.1)))
  alPut e.1 { a0 with udp := a0.udp + e.2 } m

/-- `NetBandwidthTracker::collect` (`src/system/netstat.rs:54-141`). -/
def netCollect (o : NetOracle) (tr : NetTracker)
    (pidNames : List (Nat × Str)) : NetTracker × List ProcessNetBandwidth :=
  if o.elapsed < 1/20 then (tr, [])
  else
    let tryStats : Bool := tr.admin_ok != some false
    let st1 := o.tcp4.foldl (tcp4Step o tryStats pidNames) ([], [], tr)
    let st2 := o.tcp6.foldl (tcp6Step o tryStats pidNames) st1
    let accU := o.udp6.foldl (udpStep pidNames)
      (o.udp4.foldl (udpStep pidNames) st2.2.1)
    let tr2 := { st2.2.2 with
      prev_bytes := st2.2.2.prev_bytes.filter
        (fun e => st2.1.contains e.1)
      enabled_set := st2.2.2.enabled_set.filter
        (fun k => st2.1.contains k) }
    let out := (accU.filter (fun e => e.1 != 0)).map (fun e =>
      { pid := e.1
        name := e.2.name
        recv_bytes_per_sec := (e.2.din : ℚ) / o.elapsed
        send_bytes_per_sec := (e.2.dout : ℚ) / o.elapsed
        connection_count := e.2.tcp + e.2.udp : ProcessNetBandwidth })
    (tr2,
     out.insertionSort (fun x y =>
       (((cmp3 (y.recv_bytes_per_sec + y.send_bytes_per_sec)
           (x.recv_bytes_per_sec + x.send_bytes_per_sec)).then
         (cmp3 y.connection_count x.connection_count)) != Ordering.gt)
         = true))

/-- The connection keys enumerated by the current poll. -/
def liveKeys (o : NetOracle) : List ConnKey :=
  o.tcp4.map TcpConn4.key ++ o.tcp6.map TcpConn6.key

/-! ### Claims C1/C2: rate non-negativity and stale-key pruning -/

lemma ioRates_nonneg (prev : Option (Nat × Nat × ℚ)) (cr cw : Nat)
    (now : ℚ) :
    0 ≤ (ioRates prev cr cw now).1 ∧ 0 ≤ (ioRates prev cr cw now).2 := by
  unfold ioRates
  cases prev with
  | none => exact ⟨le_refl 0, le_refl 0⟩
  | some p =>
    obtain ⟨pr, pw, pt⟩ := p
    dsimp only
    split_ifs with hel
    · constructor <;>
        exact div_nonneg (Nat.cast_nonneg _) (le_of_lt hel)
    · exact ⟨le_refl 0, le_refl 0⟩

lemma tcp4_fold_keys (o : NetOracle) (ts : Bool)
    (names : List (Nat × Str)) :
    ∀ (l : List TcpConn4)
      (st : List ConnKey × List (Nat × Accum) × NetTracker),
      (l.foldl (tcp4Step o ts names) st).1 = st.1 ++ l.map TcpConn4.key := by
  intro l
  induction l with
  | nil => intro st; simp
  | cons c rest ih =>
    intro st
    simp only [List.foldl_cons, List.map_cons]
    rw [ih]
    simp [tcp4Step]

lemma tcp6_fold_keys (o : NetOracle) (ts : Bool)
    (names : List (Nat × Str)) :
    ∀ (l : List TcpConn6)
      (st : List ConnKey × List (Nat × Accum) × NetTracker),
      (l.foldl (tcp6Step o ts names) st).1 = st.1 ++ l.map TcpConn6.key := by
  intro l
  induction l with
  | nil => intro st; simp
  | cons c rest ih =>
    intro st
    simp only [List.foldl_cons, List.map_cons]
    rw [ih]
    simp [tcp6Step]

/-- Claim C2: after a sample pass, every pid key left in the I/O counter
cache is a pid enumerated in the current tick, and (for a poll that runs,
i.e. at least 50 ms after the previous one) every connection key left in
the per-connection byte cache or the enabled set is a connection
enumerated in the current poll. -/
theorem stale_keys_pruned :
    (∀ (os : OsSample) (c : CollectorState) (a : AppState)
      (e : Nat × (Nat × Nat × ℚ)),
      e ∈ (collect_processes os c a).1.prev_io_counters →
        e.1 ∈ os.rawProcs.map (·.pid)) ∧
    (∀ (o : NetOracle) (tr : NetTracker) (names : List (Nat × Str)),
      1/20 ≤ o.elapsed →
      (∀ e ∈ (netCollect o tr names).1.prev_bytes, e.1 ∈ liveKeys o) ∧
      (∀ k ∈ (netCollect o tr names).1.enabled_set, k ∈ liveKeys o)) := by
  constructor
  · intro os c a e he
    simp only [collect_processes] at he
    obtain ⟨_, hconta⟩ := List.mem_filter.mp he
    simpa using hconta
  · intro o tr names h
    have hcond : ¬(o.elapsed < 1/20) := not_lt.mpr h
    have hpb : (netCollect o tr names).1.prev_bytes =
        ((o.tcp6.foldl (tcp6Step o (tr.admin_ok != some false) names)
          (o.tcp4.foldl (tcp4Step o (tr.admin_ok != some false) names)
            ([], [], tr))).2.2.prev_bytes.filter (fun e =>
          ((o.tcp6.foldl (tcp6Step o (tr.admin_ok != some false) names)
            (o.tcp4.foldl (tcp4Step o (tr.admin_ok != some false) names)
              ([], [], tr))).1.contains e.1))) := by
      unfold netCollect
      rw [if_neg hcond]
    have hes : (netCollect o tr names).1.enabled_set =
        ((o.tcp6.foldl (tcp6Step o (tr.admin_ok != some false) names)
          (o.tcp4.foldl (tcp4Step o (tr.admin_ok != some false) names)
            ([], [], tr))).2.2.enabled_set.filter (fun k =>
          ((o.tcp6.foldl (tcp6Step o (tr.admin_ok != some false) names)
            (o.tcp4.foldl (tcp4Step o (tr.admin_ok != some false) names)
              ([], [], tr))).1.contains k))) := by
      unfold netCollect
      rw [if_neg hcond]
    have hkeys : (o.tcp6.foldl (tcp6Step o (tr.admin_ok != some false)
          names)
        (o.tcp4.foldl (tcp4Step o (tr.admin_ok != some false) names)
          ([], [], tr))).1 = liveKeys o := by
      rw [tcp6_fold_keys, tcp4_fold_keys]
      simp [liveKeys]
    constructor
    · intro e he
      rw [hpb] at he
      obtain ⟨_, hconta⟩ := List.mem_filter.mp he
      rw [hkeys] at hconta
      simpa using hconta
    · intro k hk
      rw [hes] at hk
      obtain ⟨_, hconta⟩ := List.mem_filter.mp hk
      rw [hkeys] at hconta
      simpa using hconta

lemma collect_fold_entry_props (w : List (Nat × WinProcessData))
    (u : List (Nat × Str)) (io : List (Nat × (Nat × Nat)))
    (tms : List (Nat × Nat)) (up : Nat) (now : ℚ) :
    ∀ (rs : List RawProc)
      (st : List ProcessInfo × List (Nat × (Nat × Nat × ℚ)) ×
        Nat × Nat × Nat),
      (∀ p ∈ st.1,
        (0 ≤ p.io_read_rate ∧ 0 ≤ p.io_write_rate) ∧
        (alGet p.pid w = none →
          p.priority = 8 ∧ p.nice = 0 ∧ p.threads = 1) ∧
        (tms = [] → p.cpu_time_100ns = 0)) →
      ∀ p ∈ (rs.foldl (collectStep w u io tms up now) st).1,
        (0 ≤ p.io_read_rate ∧ 0 ≤ p.io_write_rate) ∧
        (alGet p.pid w = none →
          p.priority = 8 ∧ p.nice = 0 ∧ p.threads = 1) ∧
        (tms = [] → p.cpu_time_100ns = 0) := by
  intro rs
  induction rs with
  | nil => intro st hst p hp; exact hst p hp
  | cons r rest ih =>
    intro st hst p hp
    rw [List.foldl_cons] at hp
    refine ih _ ?_ p hp
    intro q hq
    simp only [collectStep] at hq
    rw [List.mem_append] at hq
    rcases hq with hq | hq
    · exact hst q hq
    · have hqe := List.mem_singleton.mp hq
      subst hqe
      refine ⟨ioRates_nonneg _ _ _ _, ?_, ?_⟩
      · intro hnone
        simp only [hnone, Option.map_none', Option.getD_none]
        exact ⟨trivial, trivial, trivial⟩
      · intro htms
        simp [htms, alGet]
  
/-- Claim C1: derived I/O read/write rates are never negative — at the
single-process level (`ioRates`), for every process produced by a sample
pass, and for every per-process bandwidth entry of the connection
tracker; and a cumulative counter smaller than the previous one clamps
the rate to exactly 0. -/
theorem io_rates_nonneg :
    (∀ (prev : Option (Nat × Nat × ℚ)) (cr cw : Nat) (now : ℚ),
      0 ≤ (ioRates prev cr cw now).1 ∧ 0 ≤ (ioRates prev cr cw now).2) ∧
    (∀ (pr pw : Nat) (pt : ℚ) (cr cw : Nat) (now : ℚ), cr < pr →
      (ioRates (some (pr, pw, pt)) cr cw now).1 = 0) ∧
    (∀ (pr pw : Nat) (pt : ℚ) (cr cw : Nat) (now : ℚ), cw < pw →
      (ioRates (some (pr, pw, pt)) cr cw now).2 = 0) ∧
    (∀ (os : OsSample) (c : CollectorState) (a : AppState),
      ∀ p ∈ (collect_processes os c a).2.processes,
        0 ≤ p.io_read_rate ∧ 0 ≤ p.io_write_rate) ∧
    (∀ (o : NetOracle) (tr : NetTracker) (names : List (Nat × Str)),
      ∀ b ∈ (netCollect o tr names).2,
        0 ≤ b.recv_bytes_per_sec ∧ 0 ≤ b.send_bytes_per_sec) := by
  refine ⟨ioRates_nonneg, ?_, ?_, ?_, ?_⟩
  · intro pr pw pt cr cw now h
    unfold ioRates
    dsimp only
    split_ifs with hel
    · rw [Nat.sub_eq_zero_of_le (le_of_lt h)]
      simp
    · rfl
  · intro pr pw pt cr cw now h
    unfold ioRates
    dsimp only
    split_ifs with hel
    · rw [Nat.sub_eq_zero_of_le (le_of_lt h)]
      simp
    · rfl
  · intro os c a p hp
    simp only [collect_processes] at hp
    split at hp
    · rw [List.mem_flatten] at hp
      obtain ⟨l, hl, hpl⟩ := hp
      rw [List.mem_map] at hl
      obtain ⟨q, hq, rfl⟩ := hl
      rcases List.mem_cons.mp hpl with heq | hpt
      · rw [heq]
        exact (collect_fold_entry_props _ _ _ _ _ _ _ _
          (by intro x hx; simp at hx) q hq).1
      · rw [List.mem_map] at hpt
        obtain ⟨ti, _, rfl⟩ := hpt
        exact ⟨le_refl 0, le_refl 0⟩
    · exact (collect_fold_entry_props _ _ _ _ _ _ _ _
        (by intro x hx; simp at hx) p hp).1
  · intro o tr names b hb
    unfold netCollect at hb
    split_ifs at hb with hel
    · simp at hb
    · have helpos : 0 < o.elapsed := by
        rw [not_lt] at hel
        linarith
      have hb' := (List.perm_insertionSort _ _).mem_iff.mp hb
      rw [List.mem_map] at hb'
      obtain ⟨e, _, rfl⟩ := hb'
      exact ⟨div_nonneg (Nat.cast_nonneg _) (le_of_lt helpos),
        div_nonneg (Nat.cast_nonneg _) (le_of_lt helpos)⟩

/-- A one-process OS sample with fresh I/O counters, for the C1/C2
witnesses. -/
def rawW : RawProc where
  pid := 1
  ppid := 0
  name := "a".toList
  command := []
  status := .Run
  virt := 0
  resident := 0
  cpu_usage := 0
  mem_pct := 0
  run_time := 0

def osC2 : OsSample := { osW with
  rawProcs := [rawW]
  ioCounters := [(1, (1500, 900))] }

/-- Collector state holding a live (pid 1) and a stale (pid 2) I/O cache
entry. -/
def cC2 : CollectorState := { collector_new with
  prev_io_counters := [(1, (1000, 900, 0)), (2, (0, 0, 0))] }

/-- An established (state 5) TCP v4 connection. -/
def connW : TcpConn4 where
  state := 5
  laddr := 1
  lport := 2
  raddr := 3
  rport := 4
  pid := 7

/-- One-connection poll, 1 s after the previous one, with readable
EStats. -/
def oNetW : NetOracle where
  elapsed := 1
  tcp4 := [connW]
  tcp6 := []
  udp4 := []
  udp6 := []
  set4 := fun _ => false
  get4 := fun _ => some (7, 9)
  set6 := fun _ => false
  get6 := fun _ => none

/-- Tracker with admin confirmed, holding a live and a stale key in both
the byte cache and the enabled set. -/
def trW : NetTracker where
  prev_bytes := [(connW.key, (5, 5)), (ConnKey.V4 9 9 9 9, (1, 1))]
  enabled_set := [connW.key, ConnKey.V4 9 9 9 9]
  admin_ok := some true

theorem stale_keys_pruned_witness :
    ((1, ((1500 : Nat), (900 : Nat), (1 : ℚ))) ∈
        (collect_processes osC2 cC2 app_new).1.prev_io_counters ∧
      (1 : Nat) ∈ osC2.rawProcs.map (·.pid)) ∧
    ((1 : ℚ)/20 ≤ oNetW.elapsed ∧
      (connW.key, (7 : Nat), (9 : Nat)) ∈
        (netCollect oNetW trW []).1.prev_bytes ∧
      connW.key ∈ liveKeys oNetW) ∧
    (connW.key ∈ (netCollect oNetW trW []).1.enabled_set ∧
      connW.key ∈ liveKeys oNetW) :=
  ⟨⟨by decide, stale_keys_pruned.1 osC2 cC2 app_new
      (1, ((1500 : Nat), (900 : Nat), (1 : ℚ))) (by decide)⟩,
   ⟨by decide, by decide,
     (stale_keys_pruned.2 oNetW trW [] (by decide)).1
       (connW.key, (7 : Nat), (9 : Nat)) (by decide)⟩,
   ⟨by decide,
     (stale_keys_pruned.2 oNetW trW [] (by decide)).2
       connW.key (by decide)⟩⟩

/-- The `ProcessInfo` produced from `rawW` under `osC2`/`cC2`: its I/O
rates are (1500-1000)/1 = 500 and (900-900)/1 = 0. -/
def pW1 : ProcessInfo where
  pid := 1
  ppid := 0
  name := "a".toList
  command := []
  user := "SYSTEM".toList
  status := .Running
  priority := 8
  nice := 0
  virtual_mem := 0
  resident_mem := 0
  shared_mem := 0
  cpu_usage := 0
  mem_usage := 0
  run_time := 0
  cpu_time_100ns := 0
  threads := 1
  io_read_rate := 500
  io_write_rate := 0
  depth := 0
  is_last_child := false

/-- The bandwidth entry produced from `connW` under `oNetW`/`trW`. -/
def bW : ProcessNetBandwidth where
  pid := 7
  name := fallback_name 7
  recv_bytes_per_sec := 2
  send_bytes_per_sec := 4
  connection_count := 1

theorem io_rates_nonneg_witness :
    (0 ≤ (ioRates (some (1000, 900, (0 : ℚ))) 1500 900 1).1 ∧
      0 ≤ (ioRates (some (1000, 900, (0 : ℚ))) 1500 900 1).2) ∧
    ((200 : Nat) < 1500 ∧
      (ioRates (some (1500, 900, (0 : ℚ))) 200 1400 1).1 = 0) ∧
    ((900 : Nat) < 1400 ∧
      (ioRates (some (1500, 1400, (0 : ℚ))) 1600 900 1).2 = 0) ∧
    (pW1 ∈ (collect_processes osC2 cC2 app_new).2.processes ∧
      0 ≤ pW1.io_read_rate ∧ 0 ≤ pW1.io_write_rate) ∧
    (bW ∈ (netCollect oNetW trW []).2 ∧
      0 ≤ bW.recv_bytes_per_sec ∧ 0 ≤ bW.send_bytes_per_sec) :=
  ⟨io_rates_nonneg.1 (some (1000, 900, (0 : ℚ))) 1500 900 1,
   ⟨by decide, io_rates_nonneg.2.1 1500 900 0 200 1400 1 (by decide)⟩,
   ⟨by decide, io_rates_nonneg.2.2.1 1500 1400 0 1600 900 1 (by decide)⟩,
   ⟨by decide,
     io_rates_nonneg.2.2.2.1 osC2 cC2 app_new pW1 (by decide)⟩,
   ⟨by decide,
     io_rates_nonneg.2.2.2.2 oNetW trW [] bW (by decide)⟩⟩

lemma alGet_alPut_self {α β : Type} [DecidableEq α] (k : α) (v : β)
    (l : List (α × β)) : alGet k (alPut k v l) = some v := by
  induction l with
  | nil => simp [alPut, alGet]
  | cons e rest ih =>
    by_cases h : k = e.1
    · simp [alPut, h, alGet]
    · simp [alPut, h, alGet, ih]

lemma alGet_alPut_ne {α β : Type} [DecidableEq α] {k k' : α}
    (hne : k ≠ k') (v : β) (l : List (α × β)) :
    alGet k (alPut k' v l) = alGet k l := by
  induction l with
  | nil => simp [alPut, alGet, hne]
  | cons e rest ih =>
    by_cases h : k' = e.1
    · subst h
      simp [alPut, alGet, hne]
    · simp only [alPut, h, if_false, alGet]
      by_cases hk : k = e.1
      · simp [hk]
      · rw [if_neg hk, if_neg hk]
        exact ih

lemma alGet_filter_key {α β : Type} [DecidableEq α] (k : α) (f : α → Bool)
    (hf : f k = true) (l : List (α × β)) :
    alGet k (l.filter (fun e => f e.1)) = alGet k l := by
  induction l with
  | nil => rfl
  | cons e rest ih =>
    by_cases hk : k = e.1
    · subst hk
      rw [List.filter_cons, if_pos (by simpa using hf)]
      simp [alGet, ih]
    · rw [List.filter_cons]
      split_ifs with hfe
      · simp only [alGet]
        rw [if_neg hk, if_neg hk]
        exact ih
      · rw [ih]
        simp only [alGet]
        rw [if_neg hk]

lemma fold_io_not_mem (w : List (Nat × WinProcessData))
    (u : List (Nat × Str)) (io : List (Nat × (Nat × Nat)))
    (tms : List (Nat × Nat)) (up : Nat) (now : ℚ) :
    ∀ (rs : List RawProc)
      (st : List ProcessInfo × List (Nat × (Nat × Nat × ℚ)) ×
        Nat × Nat × Nat) (pid : Nat), pid ∉ rs.map (·.pid) →
      alGet pid (rs.foldl (collectStep w u io tms up now) st).2.1 =
        alGet pid st.2.1 := by
  intro rs
  induction rs with
  | nil => intro st pid _; rfl
  | cons r rest ih =>
    intro st pid hpid
    rw [List.map_cons, List.mem_cons] at hpid
    push_neg at hpid
    rw [List.foldl_cons, ih _ pid hpid.2]
    simp only [collectStep]
    exact alGet_alPut_ne hpid.1 _ _

lemma fold_io_mem (w : List (Nat × WinProcessData))
    (u : List (Nat × Str)) (io : List (Nat × (Nat × Nat)))
    (tms : List (Nat × Nat)) (up : Nat) (now : ℚ) :
    ∀ (rs : List RawProc)
      (st : List ProcessInfo × List (Nat × (Nat × Nat × ℚ)) ×
        Nat × Nat × Nat) (pid : Nat), pid ∈ rs.map (·.pid) →
      alGet pid (rs.foldl (collectStep w u io tms up now) st).2.1 =
        some (((alGet pid io).getD (0, 0)).1,
          ((alGet pid io).getD (0, 0)).2, now) := by
  intro rs
  induction rs with
  | nil => intro st pid h; simp at h
  | cons r rest ih =>
    intro st pid hpid
    rw [List.foldl_cons]
    by_cases hmem : pid ∈ rest.map (·.pid)
    · exact ih _ pid hmem
    · rw [List.map_cons, List.mem_cons] at hpid
      rcases hpid with rfl | h
      · rw [fold_io_not_mem w u io tms up now rest _ _ hmem]
        simp only [collectStep]
        exact alGet_alPut_self _ _ _
      · exact absurd h hmem

/-- Claim C3 counterexample: the win-data/user-name cache refresh and the
per-process CPU-time sampling run on the SAME ticks — at tick 3 both
fire, and at tick 1 (where `t % 3 == 1`) the CPU-time query does not run
at all, refuting both "exactly when t % 3 == 1" and "the two expensive
batch queries never run on the same tick". -/
theorem cache_cadence_same_tick :
    winRefreshNow 3 = true ∧ timesNow 3 = true ∧
    ((3 % 3 == 1) = false) ∧
    timesNow 1 = false ∧ ((1 % 3 == 1) = true) := by decide

/-- Claim C3 (amended): the win-data/user-name cache is refreshed exactly
when `t % 3 == 0`; the CPU-time sampling runs on exactly the SAME ticks
(the counter is incremented between the two checks, so `ticks % 3 == 1`
post-increment coincides with the refresh ticks); on a pass where the
cache misses a pid the process gets the documented defaults (priority 8,
nice 0, thread count 1); on a pass where the CPU-time sampling is off
every process reports `cpu_time_100ns = 0`; and the I/O byte counters are
read and cached on EVERY tick — after any pass, every current pid maps to
the tick's fresh counters, timestamped with the tick's clock. -/
theorem cache_cadence_spec :
    (∀ t, winRefreshNow t = decide (t % 3 = 0)) ∧
    (∀ t, timesNow t = winRefreshNow t) ∧
    (∀ (os : OsSample) (c : CollectorState) (a : AppState),
      a.show_threads = false →
      ∀ p ∈ (collect_processes os c a).2.processes,
        (alGet p.pid (if winRefreshNow c.win_data_cache_ticks
            then os.winData else c.win_data_cache) = none →
          p.priority = 8 ∧ p.nice = 0 ∧ p.threads = 1) ∧
        (timesNow c.win_data_cache_ticks = false →
          p.cpu_time_100ns = 0)) ∧
    (∀ (os : OsSample) (c : CollectorState) (a : AppState) (pid : Nat),
      pid ∈ os.rawProcs.map (·.pid) →
      alGet pid (collect_processes os c a).1.prev_io_counters =
        some (((alGet pid os.ioCounters).getD (0, 0)).1,
          ((alGet pid os.ioCounters).getD (0, 0)).2, os.now)) := by
  refine ⟨?_, ?_, ?_, ?_⟩
  · intro t
    rw [Bool.eq_iff_iff]
    simp only [winRefreshNow, Bool.or_eq_true, beq_iff_eq,
      decide_eq_true_eq]
    omega
  · intro t
    rw [Bool.eq_iff_iff]
    simp only [timesNow, winRefreshNow, Bool.or_eq_true, beq_iff_eq]
    omega
  · intro os c a hth p hp
    simp only [collect_processes, hth, Bool.false_eq_true, if_false] at hp
    have h := collect_fold_entry_props
      (if winRefreshNow c.win_data_cache_ticks then os.winData
        else c.win_data_cache)
      (if winRefreshNow c.win_data_cache_ticks then os.userNames
        else c.user_name_cache)
      os.ioCounters
      (if timesNow c.win_data_cache_ticks then os.procTimes else [])
      os.uptime os.now os.rawProcs _ (by intro x hx; simp at hx) p hp
    refine ⟨h.2.1, ?_⟩
    intro htoff
    exact h.2.2 (by rw [htoff, if_neg (by simp)])
  · intro os c a pid hpid
    simp only [collect_processes]
    rw [alGet_filter_key pid (fun k => (os.rawProcs.map (·.pid)).contains k)
      (by simpa using hpid)]
    exact fold_io_mem _ _ _ _ _ _ os.rawProcs _ pid hpid

/-- `cC2` one tick later: the cache refresh and the CPU-time sampling are
both off. -/
def cC3 : CollectorState := { cC2 with win_data_cache_ticks := 1 }

theorem cache_cadence_spec_witness :
    winRefreshNow 0 = decide ((0 : Nat) % 3 = 0) ∧
    timesNow 4 = winRefreshNow 4 ∧
    (app_new.show_threads = false ∧
      pW1 ∈ (collect_processes osC2 cC3 app_new).2.processes ∧
      (pW1.priority = 8 ∧ pW1.nice = 0 ∧ pW1.threads = 1) ∧
      pW1.cpu_time_100ns = 0) ∧
    ((1 : Nat) ∈ osC2.rawProcs.map (·.pid) ∧
      alGet 1 (collect_processes osC2 cC3 app_new).1.prev_io_counters =
        some (1500, 900, (1 : ℚ))) :=
  ⟨cache_cadence_spec.1 0, cache_cadence_spec.2.1 4,
   ⟨rfl, by decide,
    (cache_cadence_spec.2.2.1 osC2 cC3 app_new rfl pW1 (by decide)).1
      (by decide),
    (cache_cadence_spec.2.2.1 osC2 cC3 app_new rfl pW1 (by decide)).2
      (by decide)⟩,
   ⟨by decide,
    cache_cadence_spec.2.2.2 osC2 cC3 app_new 1 (by decide)⟩⟩
/-- The pid at index `i` of the filtered list. -/
def pidAt (ps : List ProcessInfo) (i : Nat) : Nat := (ps.getD i default).pid

/-- The tree-view edge: `j` is listed among the children of index `i`. -/
def childEdge (ps : List ProcessInfo) (i j : Nat) : Prop :=
  j ∈ childrenOf ps (pidAt ps i)

/-- Strict tree-view ancestry. -/
def Anc (ps : List ProcessInfo) : Nat → Nat → Prop :=
  Relation.TransGen (childEdge ps)

/-- Reflexive tree-view ancestry. -/
def AncR (ps : List ProcessInfo) : Nat → Nat → Prop :=
  Relation.ReflTransGen (childEdge ps)

/-- Acyclicity of the parent/child graph, witnessed by a bounded rank
function that increases along edges — checkable on a concrete list. -/
def TreeAcyclic (ps : List ProcessInfo) : Prop :=
  ∃ rk : Nat → Nat,
    (∀ i, i < ps.length → rk i < ps.length) ∧
    (∀ i, i < ps.length → ∀ j ∈ childrenOf ps (pidAt ps i), rk i < rk j)

/-- `m`-step descent of the traversal from `i` to `j` along child edges,
never descending out of a collapsed pid (the endpoint may be
collapsed). -/
inductive Desc (ps : List ProcessInfo) (collapsed : List Nat) :
    Nat → Nat → Nat → Prop
  | refl (i : Nat) : Desc ps collapsed i i 0
  | head {i j k : Nat} {m : Nat} :
      collapsed.contains (pidAt ps i) = false →
      j ∈ childrenOf ps (pidAt ps i) →
      Desc ps collapsed j k m →
      Desc ps collapsed i k (m + 1)

/-- The `is_last_child` value every non-root entry receives: its index is
the last among the children of its parent's pid. -/
def lastFlag (ps : List ProcessInfo) (j : Nat) : Bool :=
  (childrenOf ps ((ps.getD j default).ppid)).getLast? == some j

/-- The traversal entries `(index, depth, is_last)` of
`build_tree_view`. -/
def treeEntries (ps : List ProcessInfo) (collapsed : List Nat) :
    List (Nat × Nat × Bool) :=
  dfsRoots ps collapsed ps.length (rootIndices ps) 0 (rootIndices ps).length

/-- The index traversal order, stripped of depth/flag bookkeeping. -/
def dfsIdx (ps : List ProcessInfo) (collapsed : List Nat) :
    Nat → Nat → List Nat
  | 0, _ => []
  | fuel + 1, i =>
    i :: (if collapsed.contains (pidAt ps i) then []
      else ((childrenOf ps (pidAt ps i)).map
        (fun c => dfsIdx ps collapsed fuel c)).flatten)

lemma childrenOf_nodup (ps : List ProcessInfo) (pid : Nat) :
    (childrenOf ps pid).Nodup :=
  (List.nodup_range _).filter _

lemma rootIndices_nodup (ps : List ProcessInfo) :
    (rootIndices ps).Nodup :=
  (List.nodup_range _).filter _

lemma mem_childrenOf_lt {ps : List ProcessInfo} {pid j : Nat}
    (h : j ∈ childrenOf ps pid) : j < ps.length := by
  have := (List.mem_filter.mp h).1
  simpa using this

lemma mem_childrenOf_not_root {ps : List ProcessInfo} {pid j : Nat}
    (h : j ∈ childrenOf ps pid) : isRootAt ps j = false := by
  have := (List.mem_filter.mp h).2
  simp only [Bool.and_eq_true, Bool.not_eq_true'] at this
  exact this.1

lemma mem_childrenOf_ppid {ps : List ProcessInfo} {pid j : Nat}
    (h : j ∈ childrenOf ps pid) : (ps.getD j default).ppid = pid := by
  have := (List.mem_filter.mp h).2
  simp only [Bool.and_eq_true, beq_iff_eq] at this
  exact this.2

lemma mem_rootIndices_lt {ps : List ProcessInfo} {r : Nat}
    (h : r ∈ rootIndices ps) : r < ps.length := by
  have := (List.mem_filter.mp h).1
  simpa using this

lemma mem_rootIndices_root {ps : List ProcessInfo} {r : Nat}
    (h : r ∈ rootIndices ps) : isRootAt ps r = true :=
  (List.mem_filter.mp h).2

lemma childEdge_lt {ps : List ProcessInfo} {i j : Nat}
    (h : childEdge ps i j) : j < ps.length :=
  mem_childrenOf_lt h

lemma root_no_inedge {ps : List ProcessInfo} {i j : Nat}
    (h : childEdge ps i j) : isRootAt ps j = false :=
  mem_childrenOf_not_root h

lemma parent_unique {ps : List ProcessInfo}
    (hnd : (ps.map (·.pid)).Nodup) {i i' j : Nat}
    (hi : i < ps.length) (hi' : i' < ps.length)
    (h : childEdge ps i j) (h' : childEdge ps i' j) : i = i' := by
  have e1 := mem_childrenOf_ppid h
  have e2 := mem_childrenOf_ppid h'
  have hpid : pidAt ps i = pidAt ps i' := by rw [← e1, ← e2]
  have hmi : (ps.map (·.pid)).get ⟨i, by simpa using hi⟩ =
      (ps.map (·.pid)).get ⟨i', by simpa using hi'⟩ := by
    simp only [List.get_eq_getElem, List.getElem_map]
    have g1 : ps.getD i default = ps[i] := List.getD_eq_getElem ps default hi
    have g2 : ps.getD i' default = ps[i'] := List.getD_eq_getElem ps default hi'
    unfold pidAt at hpid
    rw [g1, g2] at hpid
    exact hpid
  have := (List.Nodup.get_inj_iff hnd).mp hmi
  simpa using this

lemma ancR_lt {ps : List ProcessInfo} {i j : Nat}
    (h : AncR ps i j) (hi : i < ps.length) : j < ps.length := by
  induction h with
  | refl => exact hi
  | tail _ hbc _ => exact childEdge_lt hbc

lemma anc_lt {ps : List ProcessInfo} {i j : Nat}
    (h : Anc ps i j) : j < ps.length := by
  induction h with
  | single hbc => exact childEdge_lt hbc
  | tail _ hbc _ => exact childEdge_lt hbc

lemma anc_rank {ps : List ProcessInfo} {rk : Nat → Nat}
    (hinc : ∀ i, i < ps.length →
      ∀ j ∈ childrenOf ps (pidAt ps i), rk i < rk j)
    {i j : Nat} (h : Anc ps i j) (hi : i < ps.length) : rk i < rk j := by
  induction h with
  | single hbc => exact hinc i hi _ hbc
  | tail hab hbc ih =>
    exact lt_trans ih (hinc _ (anc_lt hab) _ hbc)

lemma no_anc_self {ps : List ProcessInfo} {rk : Nat → Nat}
    (hinc : ∀ i, i < ps.length →
      ∀ j ∈ childrenOf ps (pidAt ps i), rk i < rk j)
    {i : Nat} (hi : i < ps.length) : ¬ Anc ps i i :=
  fun h => lt_irrefl _ (anc_rank hinc h hi)

lemma anc_total {ps : List ProcessInfo}
    (hnd : (ps.map (·.pid)).Nodup) :
    ∀ {i j : Nat}, AncR ps i j → i < ps.length →
      ∀ {i' : Nat}, i' < ps.length → AncR ps i' j →
        AncR ps i i' ∨ AncR ps i' i := by
  intro i j h
  induction h with
  | refl =>
    intro _ i' _ h'
    right; exact h'
  | tail hab hbc ih =>
    intro hi i' hi' h'
    rcases h'.cases_tail with heq | ⟨b', hb', hbc'⟩
    · subst heq
      left; exact hab.tail hbc
    · have hbn := ancR_lt hab hi
      have hb'n := ancR_lt hb' hi'
      have hbb : b' = _ := parent_unique hnd hb'n hbn hbc' hbc
      rw [hbb] at hb'
      exact ih hi hi' hb'

lemma desc_to_ancR {ps : List ProcessInfo} {collapsed : List Nat}
    {i j m : Nat} (h : Desc ps collapsed i j m) : AncR ps i j := by
  induction h with
  | refl => exact Relation.ReflTransGen.refl
  | head _ hedge _ ih => exact Relation.ReflTransGen.head hedge ih

lemma desc_rank {ps : List ProcessInfo} {rk : Nat → Nat}
    (hinc : ∀ i, i < ps.length →
      ∀ j ∈ childrenOf ps (pidAt ps i), rk i < rk j)
    {collapsed : List Nat} {i j m : Nat}
    (h : Desc ps collapsed i j m) (hi : i < ps.length) :
    rk i + m ≤ rk j := by
  induction h with
  | refl => omega
  | head hcond hedge hd ih =>
    have h1 := hinc _ hi _ hedge
    have h2 := ih (mem_childrenOf_lt hedge)
    omega

lemma desc_weaken {ps : List ProcessInfo} {collapsed : List Nat}
    {i j m : Nat} (h : Desc ps collapsed i j m) : Desc ps [] i j m := by
  induction h with
  | refl => exact .refl _
  | head _ hedge _ ih => exact .head rfl hedge ih

lemma desc_tail {ps : List ProcessInfo} {collapsed : List Nat}
    {i j k m : Nat} (h : Desc ps collapsed i j m)
    (hcond : collapsed.contains (pidAt ps j) = false)
    (hedge : k ∈ childrenOf ps (pidAt ps j)) :
    Desc ps collapsed i k (m + 1) := by
  induction h with
  | refl => exact .head hcond hedge (.refl _)
  | head hc he _ ih => exact .head hc he (ih hcond hedge)

lemma mem_dfsIdx {ps : List ProcessInfo} {collapsed : List Nat} :
    ∀ (fuel : Nat) (i j : Nat),
      j ∈ dfsIdx ps collapsed fuel i ↔
        ∃ m, m < fuel ∧ Desc ps collapsed i j m := by
  intro fuel
  induction fuel with
  | zero =>
    intro i j
    simp [dfsIdx]
  | succ fuel ih =>
    intro i j
    constructor
    · intro hj
      rw [dfsIdx, List.mem_cons] at hj
      rcases hj with rfl | hj
      · exact ⟨0, Nat.succ_pos _, .refl _⟩
      · rcases hcond : collapsed.contains (pidAt ps i) with _ | _
        · rw [hcond, if_neg (by simp)] at hj
          rw [List.mem_flatten] at hj
          obtain ⟨l, hl, hjl⟩ := hj
          rw [List.mem_map] at hl
          obtain ⟨c, hc, rfl⟩ := hl
          obtain ⟨m, hm, hd⟩ := (ih c j).mp hjl
          exact ⟨m + 1, by omega, .head hcond hc hd⟩
        · rw [hcond, if_pos rfl] at hj
          simp at hj
    · rintro ⟨m, hm, hd⟩
      cases hd with
      | refl => rw [dfsIdx]; exact List.mem_cons_self _ _
      | head hcond hedge hd' =>
        rw [dfsIdx, List.mem_cons]
        right
        rw [hcond, if_neg (by simp), List.mem_flatten]
        refine ⟨_, List.mem_map_of_mem _ hedge, ?_⟩
        exact (ih _ j).mpr ⟨_, by omega, hd'⟩

lemma not_in_child_subtree {ps : List ProcessInfo} {rk : Nat → Nat}
    (hinc : ∀ i, i < ps.length →
      ∀ j ∈ childrenOf ps (pidAt ps i), rk i < rk j)
    {x c : Nat} (hx : x < ps.length) (hedge : childEdge ps x c)
    (h : AncR ps c x) : False :=
  no_anc_self hinc hx (Relation.TransGen.head' hedge h)

lemma sibling_aux {ps : List ProcessInfo}
    (hnd : (ps.map (·.pid)).Nodup) {rk : Nat → Nat}
    (hinc : ∀ i, i < ps.length →
      ∀ j ∈ childrenOf ps (pidAt ps i), rk i < rk j)
    {x c c' : Nat} (hx : x < ps.length) (hc : childEdge ps x c)
    (hc' : childEdge ps x c') (hne : c ≠ c')
    (htot : AncR ps c c') : False := by
  rcases htot.cases_tail with heq | ⟨b, hb, hbc⟩
  · exact hne heq.symm
  · have hbn := ancR_lt hb (childEdge_lt hc)
    have hbx : b = x := parent_unique hnd hbn hx hbc hc'
    rw [hbx] at hb
    exact not_in_child_subtree hinc hx hc hb

lemma sibling_subtree_disjoint {ps : List ProcessInfo}
    (hnd : (ps.map (·.pid)).Nodup) {rk : Nat → Nat}
    (hinc : ∀ i, i < ps.length →
      ∀ j ∈ childrenOf ps (pidAt ps i), rk i < rk j)
    {x c c' j : Nat} (hx : x < ps.length) (hc : childEdge ps x c)
    (hc' : childEdge ps x c') (hne : c ≠ c')
    (h : AncR ps c j) (h' : AncR ps c' j) : False := by
  rcases anc_total hnd h (childEdge_lt hc) (childEdge_lt hc') h' with
    htot | htot
  · exact sibling_aux hnd hinc hx hc hc' hne htot
  · exact sibling_aux hnd hinc hx hc' hc (Ne.symm hne) htot

lemma root_aux {ps : List ProcessInfo} {r r' : Nat}
    (hr' : r' ∈ rootIndices ps) (hne : r ≠ r')
    (htot : AncR ps r r') : False := by
  rcases htot.cases_tail with heq | ⟨b, _, hbc⟩
  · exact hne heq.symm
  · have h1 := mem_rootIndices_root hr'
    rw [root_no_inedge hbc] at h1
    simp at h1

lemma root_subtree_disjoint {ps : List ProcessInfo}
    (hnd : (ps.map (·.pid)).Nodup) {r r' j : Nat}
    (hr : r ∈ rootIndices ps) (hr' : r' ∈ rootIndices ps)
    (hne : r ≠ r') (h : AncR ps r j) (h' : AncR ps r' j) : False := by
  rcases anc_total hnd h (mem_rootIndices_lt hr)
    (mem_rootIndices_lt hr') h' with htot | htot
  · exact root_aux hr' hne htot
  · exact root_aux hr (Ne.symm hne) htot

lemma dfsIdx_nodup {ps : List ProcessInfo} {collapsed : List Nat}
    (hnd : (ps.map (·.pid)).Nodup) {rk : Nat → Nat}
    (hinc : ∀ i, i < ps.length →
      ∀ j ∈ childrenOf ps (pidAt ps i), rk i < rk j) :
    ∀ (fuel i : Nat), i < ps.length →
      (dfsIdx ps collapsed fuel i).Nodup := by
  intro fuel
  induction fuel with
  | zero => intro i _; simp [dfsIdx]
  | succ fuel ih =>
    intro i hi
    rw [dfsIdx, List.nodup_cons]
    constructor
    · intro hmem
      rcases hcond : collapsed.contains (pidAt ps i) with _ | _
      · rw [hcond, if_neg (by simp), List.mem_flatten] at hmem
        obtain ⟨l, hl, hil⟩ := hmem
        rw [List.mem_map] at hl
        obtain ⟨c, hc, rfl⟩ := hl
        obtain ⟨m, _, hd⟩ := (mem_dfsIdx fuel c i).mp hil
        exact not_in_child_subtree hinc hi hc (desc_to_ancR hd)
      · rw [hcond, if_pos rfl] at hmem
        simp at hmem
    · rcases hcond : collapsed.contains (pidAt ps i) with _ | _
      · rw [if_neg (by simp), List.nodup_flatten]
        constructor
        · intro l hl
          rw [List.mem_map] at hl
          obtain ⟨c, hc, rfl⟩ := hl
          exact ih c (mem_childrenOf_lt hc)
        · rw [List.pairwise_map]
          refine List.Pairwise.imp_of_mem ?_
            ((childrenOf_nodup ps (pidAt ps i)))
          intro c c' hc hc' hne j hjc hjc'
          obtain ⟨m, _, hd⟩ := (mem_dfsIdx fuel c j).mp hjc
          obtain ⟨m', _, hd'⟩ := (mem_dfsIdx fuel c' j).mp hjc'
          exact sibling_subtree_disjoint hnd hinc hi hc hc' hne
            (desc_to_ancR hd) (desc_to_ancR hd')
      · simp

lemma exists_parent {ps : List ProcessInfo} {j : Nat}
    (hj : j < ps.length) (hroot : isRootAt ps j = false) :
    ∃ i, i < ps.length ∧ childEdge ps i j := by
  have h := hroot
  unfold isRootAt at h
  simp only [Bool.or_eq_false_iff, beq_eq_false_iff_ne,
    Bool.not_eq_false'] at h
  obtain ⟨hppid, hany⟩ := h
  rw [List.any_eq_true] at hany
  obtain ⟨q, hq, hqe⟩ := hany
  rw [List.mem_iff_get] at hq
  obtain ⟨⟨k, hk⟩, rfl⟩ := hq
  refine ⟨k, hk, ?_⟩
  unfold childEdge childrenOf
  rw [List.mem_filter]
  refine ⟨by simpa using hj, ?_⟩
  simp only [hroot, Bool.not_false, Bool.true_and, beq_iff_eq]
  have : pidAt ps k = (ps.get ⟨k, hk⟩).pid := by
    unfold pidAt
    rw [List.getD_eq_getElem ps default hk]
    rfl
  rw [this]
  exact (beq_iff_eq.mp hqe).symm

lemma exists_root_path_aux {ps : List ProcessInfo} {rk : Nat → Nat}
    (hinc : ∀ i, i < ps.length →
      ∀ j ∈ childrenOf ps (pidAt ps i), rk i < rk j) :
    ∀ (v j : Nat), j < ps.length → rk j < v →
      ∃ r m, r ∈ rootIndices ps ∧ Desc ps [] r j m := by
  intro v
  induction v with
  | zero => intro j _ h; omega
  | succ v ih =>
    intro j hj hrk
    rcases hroot : isRootAt ps j with _ | _
    · obtain ⟨i, hi, hedge⟩ := exists_parent hj hroot
      have hlt := hinc i hi j hedge
      obtain ⟨r, m, hr, hd⟩ := ih i hi (by omega)
      exact ⟨r, m + 1, hr, desc_tail hd rfl hedge⟩
    · refine ⟨j, 0, ?_, .refl j⟩
      unfold rootIndices
      rw [List.mem_filter]
      exact ⟨by simpa using hj, hroot⟩

lemma dfsAux_map_fst (ps : List ProcessInfo) (collapsed : List Nat) :
    ∀ (fuel i d : Nat) (l : Bool),
      (dfsAux ps collapsed fuel i d l).map (·.1) =
        dfsIdx ps collapsed fuel i := by
  intro fuel
  induction fuel with
  | zero => intro i d l; rfl
  | succ fuel ihf =>
    intro i d l
    have key : ∀ (cs : List Nat) (ci total depth : Nat),
        (dfsChildren ps collapsed fuel cs ci total depth).map (·.1) =
          (cs.map (fun c => dfsIdx ps collapsed fuel c)).flatten := by
      intro cs
      induction cs with
      | nil => intro ci total depth; rfl
      | cons c rest ihc =>
        intro ci total depth
        simp only [dfsChildren, List.map_append, List.map_cons,
          List.flatten_cons]
        rw [ihf, ihc]
    rw [dfsAux_succ, dfsIdx]
    simp only [List.map_cons]
    congr 1
    unfold pidAt
    split
    · rfl
    · rw [key]

lemma dfsRoots_map_fst (ps : List ProcessInfo) (collapsed : List Nat)
    (fuel : Nat) :
    ∀ (rs : List Nat) (ri total : Nat),
      (dfsRoots ps collapsed fuel rs ri total).map (·.1) =
        (rs.map (fun r => dfsIdx ps collapsed fuel r)).flatten := by
  intro rs
  induction rs with
  | nil => intro ri total; rfl
  | cons r rest ih =>
    intro ri total
    simp only [dfsRoots, List.map_append, List.map_cons,
      List.flatten_cons]
    rw [dfsAux_map_fst, ih]

lemma map_getD_range {α : Type} (d : α) :
    ∀ (l : List α),
      (List.range l.length).map (fun i => l.getD i d) = l := by
  intro l
  apply List.ext_getElem
  · simp
  · intro n h1 h2
    simp only [List.getElem_map, List.getElem_range]
    exact List.getD_eq_getElem l d h2

lemma desc_lt {ps : List ProcessInfo} {collapsed : List Nat}
    {i j m : Nat} (h : Desc ps collapsed i j m) (hi : i < ps.length) :
    j < ps.length :=
  ancR_lt (desc_to_ancR h) hi

lemma treeEntries_map_fst (ps : List ProcessInfo) (collapsed : List Nat) :
    (treeEntries ps collapsed).map (·.1) =
      ((rootIndices ps).map
        (fun r => dfsIdx ps collapsed ps.length r)).flatten := by
  unfold treeEntries
  rw [dfsRoots_map_fst]

lemma treeIdx_nodup {ps : List ProcessInfo} {collapsed : List Nat}
    (hnd : (ps.map (·.pid)).Nodup) {rk : Nat → Nat}
    (hinc : ∀ i, i < ps.length →
      ∀ j ∈ childrenOf ps (pidAt ps i), rk i < rk j) :
    ((treeEntries ps collapsed).map (·.1)).Nodup := by
  rw [treeEntries_map_fst, List.nodup_flatten]
  constructor
  · intro l hl
    rw [List.mem_map] at hl
    obtain ⟨r, hr, rfl⟩ := hl
    exact dfsIdx_nodup hnd hinc _ _ (mem_rootIndices_lt hr)
  · rw [List.pairwise_map]
    refine List.Pairwise.imp_of_mem ?_ (rootIndices_nodup ps)
    intro r r' hr hr' hne j hjr hjr'
    obtain ⟨m, _, hd⟩ := (mem_dfsIdx _ _ _).mp hjr
    obtain ⟨m', _, hd'⟩ := (mem_dfsIdx _ _ _).mp hjr'
    exact root_subtree_disjoint hnd hr hr' hne
      (desc_to_ancR hd) (desc_to_ancR hd')

lemma treeIdx_mem_decomp {ps : List ProcessInfo} {collapsed : List Nat}
    {j : Nat} (hj : j ∈ (treeEntries ps collapsed).map (·.1)) :
    j < ps.length ∧
      ∃ r m, r ∈ rootIndices ps ∧ Desc ps collapsed r j m := by
  rw [treeEntries_map_fst, List.mem_flatten] at hj
  obtain ⟨l, hl, hjl⟩ := hj
  rw [List.mem_map] at hl
  obtain ⟨r, hr, rfl⟩ := hl
  obtain ⟨m, _, hd⟩ := (mem_dfsIdx _ _ _).mp hjl
  exact ⟨desc_lt hd (mem_rootIndices_lt hr), r, m, hr, hd⟩

lemma treeIdx_complete {ps : List ProcessInfo} {rk : Nat → Nat}
    (hbd : ∀ i, i < ps.length → rk i < ps.length)
    (hinc : ∀ i, i < ps.length →
      ∀ j ∈ childrenOf ps (pidAt ps i), rk i < rk j)
    {j : Nat} (hj : j < ps.length) :
    j ∈ (treeEntries ps []).map (·.1) := by
  obtain ⟨r, m, hr, hd⟩ :=
    exists_root_path_aux hinc ps.length j hj (hbd j hj)
  have hm : m < ps.length := by
    have h1 := desc_rank hinc hd (mem_rootIndices_lt hr)
    have h2 := hbd j hj
    omega
  rw [treeEntries_map_fst, List.mem_flatten]
  exact ⟨_, List.mem_map_of_mem _ hr, (mem_dfsIdx _ _ _).mpr ⟨m, hm, hd⟩⟩

lemma treeIdx_perm {ps : List ProcessInfo}
    (hnd : (ps.map (·.pid)).Nodup) (hac : TreeAcyclic ps) :
    ((treeEntries ps []).map (·.1)).Perm (List.range ps.length) := by
  obtain ⟨rk, hbd, hinc⟩ := hac
  refine List.Subperm.antisymm ?_ ?_
  · refine List.Nodup.subperm (treeIdx_nodup hnd hinc) ?_
    intro j hj
    rw [List.mem_range]
    exact (treeIdx_mem_decomp hj).1
  · refine List.Nodup.subperm (List.nodup_range _) ?_
    intro j hj
    rw [List.mem_range] at hj
    exact treeIdx_complete hbd hinc hj

lemma dfsIdx_pairwise {ps : List ProcessInfo} {collapsed : List Nat}
    (hnd : (ps.map (·.pid)).Nodup) {rk : Nat → Nat}
    (hinc : ∀ i, i < ps.length →
      ∀ j ∈ childrenOf ps (pidAt ps i), rk i < rk j) :
    ∀ (fuel x : Nat), x < ps.length →
      (dfsIdx ps collapsed fuel x).Pairwise
        (fun a b => ¬ Anc ps b a) := by
  intro fuel
  induction fuel with
  | zero => intro x _; simp [dfsIdx]
  | succ fuel ih =>
    intro x hx
    rw [dfsIdx, List.pairwise_cons]
    constructor
    · intro y hy hanc
      rcases hcond : collapsed.contains (pidAt ps x) with _ | _
      · rw [hcond, if_neg (by simp), List.mem_flatten] at hy
        obtain ⟨l, hl, hyl⟩ := hy
        rw [List.mem_map] at hl
        obtain ⟨c, hc, rfl⟩ := hl
        obtain ⟨m, _, hd⟩ := (mem_dfsIdx _ _ _).mp hyl
        have hxy : Anc ps x y :=
          Relation.TransGen.head' hc (desc_to_ancR hd)
        exact no_anc_self hinc hx (hxy.trans hanc)
      · rw [hcond, if_pos rfl] at hy
        simp at hy
    · rcases hcond : collapsed.contains (pidAt ps x) with _ | _
      · rw [if_neg (by simp), List.pairwise_flatten]
        constructor
        · intro l hl
          rw [List.mem_map] at hl
          obtain ⟨c, hc, rfl⟩ := hl
          exact ih c (mem_childrenOf_lt hc)
        · rw [List.pairwise_map]
          refine List.Pairwise.imp_of_mem ?_
            (childrenOf_nodup ps (pidAt ps x))
          intro c c' hc hc' hne a ha b hb hanc
          obtain ⟨m, _, hd⟩ := (mem_dfsIdx _ _ _).mp ha
          obtain ⟨m', _, hd'⟩ := (mem_dfsIdx _ _ _).mp hb
          exact sibling_subtree_disjoint hnd hinc hx hc hc' hne
            (desc_to_ancR hd)
            ((desc_to_ancR hd').trans hanc.to_reflTransGen)
      · simp

lemma treeIdx_pairwise {ps : List ProcessInfo} {collapsed : List Nat}
    (hnd : (ps.map (·.pid)).Nodup) {rk : Nat → Nat}
    (hinc : ∀ i, i < ps.length →
      ∀ j ∈ childrenOf ps (pidAt ps i), rk i < rk j) :
    ((treeEntries ps collapsed).map (·.1)).Pairwise
      (fun a b => ¬ Anc ps b a) := by
  rw [treeEntries_map_fst, List.pairwise_flatten]
  constructor
  · intro l hl
    rw [List.mem_map] at hl
    obtain ⟨r, hr, rfl⟩ := hl
    exact dfsIdx_pairwise hnd hinc _ _ (mem_rootIndices_lt hr)
  · rw [List.pairwise_map]
    refine List.Pairwise.imp_of_mem ?_ (rootIndices_nodup ps)
    intro r r' hr hr' hne a ha b hb hanc
    obtain ⟨m, _, hd⟩ := (mem_dfsIdx _ _ _).mp ha
    obtain ⟨m', _, hd'⟩ := (mem_dfsIdx _ _ _).mp hb
    exact root_subtree_disjoint hnd hr hr' hne
      (desc_to_ancR hd)
      ((desc_to_ancR hd').trans hanc.to_reflTransGen)

lemma anc_before {ps : List ProcessInfo}
    (hnd : (ps.map (·.pid)).Nodup) (hac : TreeAcyclic ps)
    {i j : Nat} (hi : i < ps.length) (hanc : Anc ps i j) :
    ((treeEntries ps []).map (·.1)).indexOf i <
      ((treeEntries ps []).map (·.1)).indexOf j := by
  obtain ⟨rk, hbd, hinc⟩ := hac
  have hj : j < ps.length := anc_lt hanc
  have hmi := treeIdx_complete hbd hinc hi
  have hmj := treeIdx_complete hbd hinc hj
  have hne : i ≠ j := by
    rintro rfl
    exact no_anc_self hinc hi hanc
  have hpw := @treeIdx_pairwise ps [] hnd rk hinc
  set E := (treeEntries ps []).map (·.1) with hE
  have hia : E.indexOf i < E.length := List.indexOf_lt_length.mpr hmi
  have hja : E.indexOf j < E.length := List.indexOf_lt_length.mpr hmj
  have hgi : E[E.indexOf i] = i := List.getElem_indexOf hia
  have hgj : E[E.indexOf j] = j := List.getElem_indexOf hja
  rcases lt_trichotomy (E.indexOf i) (E.indexOf j) with h | h | h
  · exact h
  · exact absurd ((List.indexOf_inj hmi hmj).mp h) hne
  · have := (List.pairwise_iff_getElem.mp hpw) _ _ hja hia h
    rw [hgi, hgj] at this
    exact absurd hanc this

lemma mem_dfsChildren_decomp {ps : List ProcessInfo}
    {collapsed : List Nat} {fuel total depth : Nat} :
    ∀ (cs : List Nat) (ci : Nat) (e : Nat × Nat × Bool),
      e ∈ dfsChildren ps collapsed fuel cs ci total depth →
      ∃ (r : Nat) (hr : r < cs.length),
        e ∈ dfsAux ps collapsed fuel (cs.get ⟨r, hr⟩) depth
          ((ci + r) == total - 1) := by
  intro cs
  induction cs with
  | nil => intro ci e h; simp [dfsChildren] at h
  | cons c rest ih =>
    intro ci e h
    rw [dfsChildren, List.mem_append] at h
    rcases h with h | h
    · exact ⟨0, by simp, by simpa using h⟩
    · obtain ⟨r, hr, hmem⟩ := ih (ci + 1) e h
      refine ⟨r + 1, by simpa using hr, ?_⟩
      have harith : ci + 1 + r = ci + (r + 1) := by omega
      rw [harith] at hmem
      simpa using hmem

lemma pos_last_eq {cs : List Nat} (hnd : cs.Nodup) (r : Nat)
    (hr : r < cs.length) :
    ((r == cs.length - 1) : Bool) =
      (cs.getLast? == some (cs.get ⟨r, hr⟩)) := by
  have hlt : cs.length - 1 < cs.length := by omega
  have hlast : cs.getLast? = some (cs.get ⟨cs.length - 1, hlt⟩) := by
    rw [List.getLast?_eq_getElem?, List.getElem?_eq_getElem hlt]
    rfl
  rw [Bool.eq_iff_iff]
  simp only [beq_iff_eq, hlast, Option.some.injEq]
  constructor
  · intro h
    subst h
    rfl
  · intro h
    have := (List.Nodup.get_inj_iff hnd).mp h
    have h2 := congrArg Fin.val this
    simpa using h2.symm

lemma mem_dfsAux_decomp {ps : List ProcessInfo} {collapsed : List Nat} :
    ∀ (fuel i d : Nat) (l : Bool) (e : Nat × Nat × Bool),
      e ∈ dfsAux ps collapsed fuel i d l →
      e = (i, d, l) ∨
        (∃ m, 0 < m ∧ Desc ps collapsed i e.1 m ∧ e.2.1 = d + m ∧
          e.2.2 = lastFlag ps e.1) := by
  intro fuel
  induction fuel with
  | zero => intro i d l e h; simp [dfsAux] at h
  | succ fuel ih =>
    intro i d l e h
    rw [dfsAux_succ, List.mem_cons] at h
    rcases h with rfl | h
    · left; rfl
    · right
      rcases hcond : collapsed.contains (ps.getD i default).pid with _ | _
      · rw [hcond, if_neg (by simp)] at h
        obtain ⟨r, hr, hmem⟩ := mem_dfsChildren_decomp _ _ _ h
        have hcmem : (childrenOf ps (ps.getD i default).pid).get ⟨r, hr⟩ ∈
            childrenOf ps (ps.getD i default).pid := List.get_mem _ _ hr
        rcases ih _ (d + 1) _ e hmem with rfl | ⟨m, hm, hd, hdep, hfl⟩
        · refine ⟨1, one_pos, ?_, by simp, ?_⟩
          · exact .head hcond hcmem (.refl _)
          · show (0 + r ==
              (childrenOf ps (ps.getD i default).pid).length - 1) =
              lastFlag ps _
            rw [Nat.zero_add, pos_last_eq (childrenOf_nodup _ _) r hr]
            unfold lastFlag
            rw [mem_childrenOf_ppid hcmem]
        · refine ⟨m + 1, by omega, .head hcond hcmem hd, by omega, hfl⟩
      · rw [hcond, if_pos rfl] at h
        simp at h

lemma mem_dfsRoots_decomp {ps : List ProcessInfo}
    {collapsed : List Nat} {fuel : Nat} :
    ∀ (rs : List Nat) (ri total : Nat) (e : Nat × Nat × Bool),
      e ∈ dfsRoots ps collapsed fuel rs ri total →
      ∃ r fl, r ∈ rs ∧ e ∈ dfsAux ps collapsed fuel r 0 fl := by
  intro rs
  induction rs with
  | nil => intro ri total e h; simp [dfsRoots] at h
  | cons r rest ih =>
    intro ri total e h
    rw [dfsRoots, List.mem_append] at h
    rcases h with h | h
    · exact ⟨r, _, List.mem_cons_self _ _, h⟩
    · obtain ⟨r', fl, hr', hmem⟩ := ih _ _ e h
      exact ⟨r', fl, List.mem_cons_of_mem _ hr', hmem⟩

lemma treeEntries_decomp {ps : List ProcessInfo} {collapsed : List Nat}
    {e : Nat × Nat × Bool} (h : e ∈ treeEntries ps collapsed) :
    ∃ r m, r ∈ rootIndices ps ∧ Desc ps collapsed r e.1 m ∧
      e.2.1 = m ∧ (0 < m → e.2.2 = lastFlag ps e.1) := by
  unfold treeEntries at h
  obtain ⟨r, fl, hr, hmem⟩ := mem_dfsRoots_decomp _ _ _ _ h
  rcases mem_dfsAux_decomp _ _ _ _ _ hmem with rfl | ⟨m, hm, hd, hdep, hfl⟩
  · exact ⟨r, 0, hr, .refl r, rfl, by omega⟩
  · exact ⟨r, m, hr, hd, by simpa using hdep, fun _ => hfl⟩

lemma desc_zero {ps : List ProcessInfo} {collapsed : List Nat}
    {i j : Nat} (h : Desc ps collapsed i j 0) : i = j := by
  cases h
  rfl

lemma desc_last_edge {ps : List ProcessInfo} {collapsed : List Nat} :
    ∀ {m i j : Nat}, Desc ps collapsed i j (m + 1) →
      ∃ b, Desc ps collapsed i b m ∧ childEdge ps b j := by
  intro m
  induction m with
  | zero =>
    intro i j h
    cases h with
    | head hcond hedge hd =>
      cases hd
      exact ⟨i, .refl i, hedge⟩
  | succ m ih =>
    intro i j h
    cases h with
    | head hcond hedge hd =>
      obtain ⟨b, hdb, hbe⟩ := ih hd
      exact ⟨b, .head hcond hedge hdb, hbe⟩

lemma isRootAt_iff {ps : List ProcessInfo} {i : Nat} :
    isRootAt ps i = true ↔
      ((ps.getD i default).ppid = 0 ∨
        ∀ q ∈ ps, q.pid ≠ (ps.getD i default).ppid) := by
  unfold isRootAt
  simp only [Bool.or_eq_true, beq_iff_eq, Bool.not_eq_true',
    List.any_eq_false, beq_eq_false_iff_ne]

lemma treeIdx_mem_iff {ps : List ProcessInfo} (hac : TreeAcyclic ps)
    {collapsed : List Nat} {j : Nat} :
    j ∈ (treeEntries ps collapsed).map (·.1) ↔
      ∃ r m, r ∈ rootIndices ps ∧ Desc ps collapsed r j m := by
  constructor
  · intro h
    exact (treeIdx_mem_decomp h).2
  · rintro ⟨r, m, hr, hd⟩
    obtain ⟨rk, hbd, hinc⟩ := hac
    have hrn := mem_rootIndices_lt hr
    have hm : m < ps.length := by
      have h1 := desc_rank hinc hd hrn
      have h2 := hbd _ (desc_lt hd hrn)
      omega
    rw [treeEntries_map_fst, List.mem_flatten]
    exact ⟨_, List.mem_map_of_mem _ hr, (mem_dfsIdx _ _ _).mpr ⟨m, hm, hd⟩⟩

lemma treeIdx_collapse_subset {ps : List ProcessInfo}
    (hac : TreeAcyclic ps) {collapsed : List Nat} :
    (treeEntries ps collapsed).map (·.1) ⊆
      (treeEntries ps []).map (·.1) := by
  intro j hj
  obtain ⟨_, r, m, hr, hd⟩ := treeIdx_mem_decomp hj
  exact (treeIdx_mem_iff hac).mpr ⟨r, m, hr, desc_weaken hd⟩

/-- The three-process scenario of claim C5. -/
def scenPs : List ProcessInfo :=
  [{ (default : ProcessInfo) with
      pid := 1, ppid := 0, name := "svc".toList, command := "svc".toList },
   { (default : ProcessInfo) with
      pid := 2, ppid := 1,
      name := "svc-worker".toList, command := "svc-worker".toList },
   { (default : ProcessInfo) with
      pid := 3, ppid := 0,
      name := "other".toList, command := "other".toList }]

/-- The scenario list after the `"svc"` filter. -/
def scenFiltered : List ProcessInfo :=
  apply_filter none false ("svc".toList) scenPs

/-- Claim C5: on a pid-unique, acyclic filtered list with nothing
collapsed, `build_tree_view` emits every process exactly once (the pid
multiset is preserved); an emitted process sits at depth 0 exactly when
its ppid is 0 or absent from the filtered set; every strict ancestor is
emitted strictly before each of its descendants; a child's
`is_last_child` flag is set exactly when it is the last entry of its
parent's children list; and the concrete scenario filters to pids
`[1, 2]` and builds root 1 at depth 0 with single child 2 at depth 1,
both flagged as last children. -/
theorem build_tree_view_spec (ps : List ProcessInfo)
    (hnd : (ps.map (·.pid)).Nodup) (hac : TreeAcyclic ps) :
    ((build_tree_view [] ps).map (·.pid)).Perm (ps.map (·.pid)) ∧
    (∀ p ∈ build_tree_view [] ps,
      (p.depth = 0 ↔ (p.ppid = 0 ∨ ∀ q ∈ ps, q.pid ≠ p.ppid))) ∧
    (∀ i j : Nat, i < ps.length → Anc ps i j →
      ((treeEntries ps []).map (·.1)).indexOf i <
        ((treeEntries ps []).map (·.1)).indexOf j) ∧
    (∀ i, i < ps.length → ∀ j ∈ childrenOf ps (pidAt ps i),
      ∀ e ∈ treeEntries ps [], e.1 = j →
        (e.2.2 = true ↔
          (childrenOf ps (pidAt ps i)).getLast? = some j)) ∧
    (scenFiltered.map (·.pid) = [1, 2] ∧
      (build_tree_view [] scenFiltered).map
        (fun p => (p.pid, p.depth, p.is_last_child)) =
        [(1, 0, true), (2, 1, true)]) := by
  refine ⟨?_, ?_, ?_, ?_, by decide, by decide⟩
  · have h1 : (build_tree_view [] ps).map (·.pid) =
        ((treeEntries ps []).map (·.1)).map
          (fun i => (ps.getD i default).pid) := by
      simp only [build_tree_view, List.map_map]
      exact List.map_congr_left (fun e _ => rfl)
    have h2 : (List.range ps.length).map
        (fun i => (ps.getD i default).pid) = ps.map (·.pid) := by
      apply List.ext_getElem
      · simp
      · intro n hn1 hn2
        simp only [List.getElem_map, List.getElem_range]
        rw [List.getD_eq_getElem ps default (by simpa using hn1)]
    have hperm := (treeIdx_perm hnd hac).map
      (fun i => (ps.getD i default).pid)
    rw [h2] at hperm
    rw [h1]
    exact hperm
  · intro p hp
    simp only [build_tree_view] at hp
    rw [List.mem_map] at hp
    obtain ⟨e, he, rfl⟩ := hp
    have he' : e ∈ treeEntries ps [] := he
    obtain ⟨r, m, hr, hd, hdep, hflag⟩ := treeEntries_decomp he'
    show e.2.1 = 0 ↔ _
    constructor
    · intro h0
      rw [hdep] at h0
      subst h0
      have := desc_zero hd
      subst this
      have hroot := mem_rootIndices_root hr
      exact isRootAt_iff.mp hroot
    · intro hrhs
      have hroot : isRootAt ps e.1 = true := isRootAt_iff.mpr hrhs
      rcases m with _ | m'
      · exact hdep
      · exfalso
        obtain ⟨b, _, hbe⟩ := desc_last_edge hd
        rw [root_no_inedge hbe] at hroot
        simp at hroot
  · intro i j hi hanc
    exact anc_before hnd hac hi hanc
  · intro i hi j hj e he he1
    obtain ⟨r, m, hr, hd, hdep, hflag⟩ := treeEntries_decomp he
    have hm : 0 < m := by
      rcases Nat.eq_zero_or_pos m with rfl | h
      · exfalso
        have := desc_zero hd
        have hroot := mem_rootIndices_root hr
        rw [this, he1] at hroot
        rw [mem_childrenOf_not_root hj] at hroot
        simp at hroot
      · exact h
    have hfl := hflag hm
    rw [he1] at hfl
    unfold lastFlag at hfl
    rw [mem_childrenOf_ppid hj] at hfl
    rw [hfl]
    exact beq_iff_eq

/-- Claim C6: collapse is presentational — the traversal refuses to
descend out of a collapsed pid (an index appears in the tree view exactly
when some root reaches it by a child path whose every non-final node is
non-collapsed, and the collapsed view's indices are a subset of the
uncollapsed view's), while the underlying data is untouched: rebuilding
the tree view leaves `processes` unchanged, the filter ignores the
collapsed set entirely, and collapsing pid 1 in the C5 scenario hides
exactly the subtree below it. -/
theorem collapse_presentational :
    (∀ s : AppState, (buildTreeViewApp s).processes = s.processes) ∧
    (∀ (s : AppState) (c : List Nat),
      (applyFilterApp { s with collapsed_pids := c }).filtered_processes =
        (applyFilterApp s).filtered_processes) ∧
    (∀ (ps : List ProcessInfo) (collapsed : List Nat), TreeAcyclic ps →
      ∀ j : Nat,
        (j ∈ (treeEntries ps collapsed).map (·.1) ↔
          ∃ r m, r ∈ rootIndices ps ∧ Desc ps collapsed r j m)) ∧
    (∀ (ps : List ProcessInfo) (collapsed : List Nat), TreeAcyclic ps →
      (treeEntries ps collapsed).map (·.1) ⊆
        (treeEntries ps []).map (·.1)) ∧
    ((build_tree_view [1] scenFiltered).map
      (fun p => (p.pid, p.depth, p.is_last_child)) = [(1, 0, true)]) := by
  refine ⟨fun s => rfl, fun s c => rfl, ?_, ?_, by decide⟩
  · intro ps collapsed hac j
    exact treeIdx_mem_iff hac
  · intro ps collapsed hac
    exact treeIdx_collapse_subset hac

theorem build_tree_view_spec_witness :
    (scenFiltered.map (·.pid)).Nodup ∧
    ((build_tree_view [] scenFiltered).map (·.pid)).Perm
      (scenFiltered.map (·.pid)) :=
  ⟨by decide,
   (build_tree_view_spec scenFiltered (by decide)
     ⟨fun i => i, by decide, by decide⟩).1⟩

theorem collapse_presentational_witness :
    (buildTreeViewApp app_new).processes = app_new.processes ∧
    ((0 : Nat) ∈ (treeEntries scenFiltered [1]).map (·.1) ↔
      ∃ r m, r ∈ rootIndices scenFiltered ∧
        Desc scenFiltered [1] r 0 m) ∧
    ((treeEntries scenFiltered [1]).map (·.1) ⊆
      (treeEntries scenFiltered []).map (·.1)) :=
  ⟨collapse_presentational.1 app_new,
   collapse_presentational.2.2.1 scenFiltered [1]
     ⟨fun i => i, by decide, by decide⟩ 0,
   collapse_presentational.2.2.2.1 scenFiltered [1]
     ⟨fun i => i, by decide, by decide⟩⟩
